import Mathlib

/-!
Verification of the tripoli IIIF validation engine (DDMAL/tripoli).

This file shallowly embeds the validation engine of the repository:

* `src/tripoli/validator_logging.py` — paths, log entries, the diagnostic log;
* `src/tripoli/mixins.py` — `SubValidationMixin._sub_validate`;
* `src/tripoli/resource_validators/base_validator.py` — `BaseValidator`
  (`_validate`, `log_error`, `log_warning`, the severity-coercion decorators
  `errors_to_warnings` / `warnings_to_errors`, `_compare_dicts`, the field
  type checks, and `_check_html`);
* the concrete resource validators of
  `src/tripoli/resource_validators/*.py`;
* the old-generation top-level router `IIIFValidator.validate` of
  `src/tripoli/tripoli.py`.

Python JSON values are embedded as the inductive type `Json`
(numbers as integers; the engine only ever tests `isinstance(value, int)`
on numeric data).  Mutable per-validator state is made explicit.
The fail-fast control signal (`FailFastException`) and Python runtime
errors (`KeyError` / `TypeError` / `AttributeError`) are modelled as an
escape component of each run result.  Python's `try/finally` semantics,
in particular the fact that a `return` statement inside a `finally`
block discards an in-flight exception, is reflected directly in the
definitions that translate the corresponding code.

Field checks are staged: a pure compilation function (mirroring the
Python method structure one-to-one) turns a document fragment into a
`Prog`, a small program whose primitive instructions are exactly the
side effects the engine can perform (`log_error` and `log_warning`
calls, raising a Python error, entering a sub-validation frame, and the
two monkey-patching severity-coercion wrappers).  `runP` then executes a
`Prog` against the logging state for a given configuration.  This is
faithful because the engine's check functions compute values purely and
never branch on the accumulated logs; the only log-sensitive control in
the engine (the fail-fast raise in `log_error`) is part of `runP`.
-/

set_option maxHeartbeats 1000000

namespace Tripoli

/-! ## JSON values -/

/-- Embedded Python/JSON value as handled by the validators. -/
inductive Json where
  | null : Json
  | bool (b : Bool) : Json
  | num (n : Int) : Json
  | str (s : String) : Json
  | arr (xs : List Json) : Json
  | obj (kvs : List (String × Json)) : Json
  deriving Inhabited

namespace Json

/-- Python truthiness of a JSON value (`bool(v)`). -/
def truthy : Json → Bool
  | .null => false
  | .bool b => b
  | .num n => n != 0
  | .str s => !(s == "")
  | .arr xs => !xs.isEmpty
  | .obj kvs => !kvs.isEmpty

/-- Dictionary lookup (`d.get(k)`), first binding wins as in Python. -/
def lookup (kvs : List (String × Json)) (k : String) : Option Json :=
  match kvs with
  | [] => none
  | (k', v) :: rest => if k' = k then some v else lookup rest k

/-- Python `d.get(k)` on an object: `None` when missing. -/
def get (j : Json) (k : String) : Option Json :=
  match j with
  | .obj kvs => lookup kvs k
  | _ => none

/-- Key membership `k in d` for an object. -/
def hasKey (j : Json) (k : String) : Bool :=
  (j.get k).isSome

end Json

/-! ## Paths (`validator_logging.Path`) -/

/-- One step of a `Path`: a field name or an array index. -/
inductive Step where
  | field (s : String) : Step
  | index (i : Nat) : Step
  deriving DecidableEq, Inhabited

/-- A path inside the document (`Path._path`). -/
abbrev JPath := List Step

/-- The index-insensitive form of a path (`Path._no_index_path`):
only the string steps are kept. -/
def noIndexPath (p : JPath) : List String :=
  p.filterMap (fun s => match s with | .field f => some f | .index _ => none)

/-- Index-insensitive path equality (`Path.no_index_eq`). -/
def noIndexEq (p q : JPath) : Bool :=
  noIndexPath p = noIndexPath q

/-- Index-insensitive suffix test (`Path.no_index_endswith`): scanning
both index-free sequences from the end, the candidate suffix must be
exhausted before a mismatch occurs. -/
def noIndexEndswith (p : JPath) (suffix : List String) : Bool :=
  suffix.reverse.isPrefixOf (noIndexPath p).reverse

/-! ## Log entries (`ValidatorLogEntry`) -/

/-- A diagnostic entry: a message plus the path it was raised at.
Severity is determined by which log (errors or warnings) holds the
entry, matching `ValidatorLogError` / `ValidatorLogWarning` being kept
in the separate `_errors` / `_warnings` logs.  The optional traceback
(`_tb`, captured only under `debug`) carries no validation content and
is omitted. -/
structure Entry where
  msg : String
  path : JPath
  deriving DecidableEq, Inhabited

/-- Equality of entries as defined by `ValidatorLogEntry.__eq__` /
`__hash__`: index-insensitive path and message. -/
def entryEq (a b : Entry) : Bool :=
  noIndexPath a.path = noIndexPath b.path && a.msg = b.msg

/-- Membership in an entry list up to `entryEq`. -/
def memEq (e : Entry) (l : List Entry) : Bool :=
  l.any (fun x => entryEq e x)

/-! ## The diagnostic log

Modelled from the spec: the class `ValidatorLog` is imported by
`base_validator.py` from `tripoli.validator_logging` but its definition
is absent from `src/`.  Per the spec it is "an insertion-order-irrelevant
set of Diagnostic Entries, parameterized by a deduplication flag"; under
deduplication "inserting two entries with equal (index-insensitive path,
message) collapses to one, regardless of insertion order", equality
being "over (index-insensitive path, message) when deduplication is
enabled, else over full identity"; `merge` is "set union honoring the
receiver's own dedup policy"; truthiness (used as `if self._errors:`)
is nonemptiness. -/
structure VLog where
  unique : Bool
  entries : List Entry
  deriving DecidableEq, Inhabited

namespace VLog

/-- Fresh log with the given deduplication flag
(`ValidatorLog(self.unique_logging)`). -/
def empty (unique : Bool) : VLog := ⟨unique, []⟩

/-- Insert one entry (`ValidatorLog.add`): under deduplication an entry
equal (index-insensitively) to a present one is dropped. -/
def add (L : VLog) (e : Entry) : VLog :=
  if L.unique && memEq e L.entries then L else ⟨L.unique, L.entries ++ [e]⟩

/-- Set union into the receiver (`self._errors | subschema._errors`),
honoring the receiver's dedup policy. -/
def merge (L : VLog) (other : List Entry) : VLog :=
  other.foldl add L

/-- Python truthiness of a log. -/
def truthy (L : VLog) : Bool := L.entries ≠ []

end VLog

/-! ## Run configuration

The recognized options of the administrative `IIIFValidator`, read by
every resource validator through `LinkedValidatorMixin`
(`fail_fast`, `collect_errors`, `collect_warnings`, `unique_logging`).
`debug` (traceback capture) and `verbose` (mirroring entries to a
logging sink) do not influence the validation content and are omitted. -/
structure Config where
  failFast : Bool
  collectErrors : Bool
  collectWarnings : Bool
  unique : Bool
  deriving DecidableEq, Inhabited

/-! ## Sink state: the monkey-patchable logging methods

`errors_to_warnings` and `warnings_to_errors` patch the class
attributes `BaseValidator.log_error` / `BaseValidator.log_warning`,
assigning to one of them the *current value* of the other, and restore
the saved value in a `finally` block.  Consequently each of the two
names is always bound to one of the two original method bodies.  `Sink`
names which original body a name is currently bound to. -/
inductive Sink where
  | toError : Sink
  | toWarning : Sink
  deriving DecidableEq, Inhabited

/-- The current bindings of the names `log_error` and `log_warning`.
These are class attributes, hence global across all validator
instances. -/
structure Sinks where
  err : Sink
  warn : Sink
  deriving DecidableEq, Inhabited

/-- The unpatched bindings. -/
def Sinks.init : Sinks := ⟨.toError, .toWarning⟩

/-! ## The engine program type

A `Prog` is the (staged) effect trace skeleton of a run of the
engine over a fixed document fragment: primitive logging calls with
their entry already computed (`log_error` / `log_warning` compute
`self._path + (field,)` from state that the compilation functions
track), Python runtime errors, sub-validation frames, and the
severity-coercion wrappers. -/
inductive Prog where
  | nop : Prog
  | err (p : JPath) (m : String) : Prog
  | warn (p : JPath) (m : String) : Prog
  | orphanErr : Prog
  | orphanWarn : Prog
  | exc : Prog
  | seq (a b : Prog) : Prog
  | e2w (a : Prog) : Prog
  | w2e (a : Prog) : Prog
  | frame (body gate : Prog) : Prog
  /-- A `try`/`finally` whose `finally` ends in `return`, wrapped around
  plain logging code of the *same* validator (`id_field`'s uuid branch):
  the body runs on the current logs, and any exception it raises — the
  `FailFastException` of a `log_error` included — is discarded by the
  `return` (Python semantics of `return` inside `finally`). -/
  | swallow (a : Prog) : Prog

/-- How a run of a `Prog` ends: normally, unwinding with the fail-fast
signal (`FailFastException`), or unwinding with a Python runtime error
(`KeyError`, `TypeError`, `AttributeError`). -/
inductive Escape where
  | none : Escape
  | failfast : Escape
  | pyerr : Escape
  deriving DecidableEq, Inhabited

/-- State threaded through a run: the current validator frame's error
and warning logs. -/
structure Logs where
  errors : VLog
  warnings : VLog
  deriving DecidableEq, Inhabited

/-- Both logs fresh, as set by `BaseValidator._reset`. -/
def Logs.fresh (unique : Bool) : Logs := ⟨.empty unique, .empty unique⟩

/-- Result of running a `Prog`: final logs of the current frame, the
escape status, and whether a `FailFastException` was raised anywhere
during the run (even if swallowed by an inner frame). -/
structure RunRes where
  logs : Logs
  esc : Escape
  hadFF : Bool
  deriving DecidableEq, Inhabited

/-- The body of `BaseValidator.log_error` (lines 299–315): if
`collect_errors`, add the entry to `self._errors`; then, if
`fail_fast`, raise `FailFastException`. -/
def logErrorBody (cfg : Config) (p : JPath) (m : String) (S : Logs) : RunRes :=
  let S' := if cfg.collectErrors then { S with errors := S.errors.add ⟨m, p⟩ } else S
  if cfg.failFast then ⟨S', .failfast, true⟩ else ⟨S', .none, false⟩

/-- The body of `BaseValidator.log_warning` (lines 283–297): if
`collect_warnings`, add the entry to `self._warnings`.  Never raises. -/
def logWarningBody (cfg : Config) (p : JPath) (m : String) (S : Logs) : RunRes :=
  let S' := if cfg.collectWarnings then { S with warnings := S.warnings.add ⟨m, p⟩ } else S
  ⟨S', .none, false⟩

/-- Orphan `log_error` call: a call made on a *different* validator
instance whose logs are never merged into the current call chain (the
direct `self.ImageContentValidator.service_field(...)` call inside
`_general_image_resource`).  Its entry is invisible to the final
result, but the fail-fast raise in `log_error` still unwinds the
caller. -/
def orphanErrorBody (cfg : Config) (S : Logs) : RunRes :=
  if cfg.failFast then ⟨S, .failfast, true⟩ else ⟨S, .none, false⟩

/-- `_sub_validate` of `SubValidationMixin` (mixins.py lines 70–93),
after the child's `_validate` has produced logs `child` and escape
`esc`: the `finally` block always merges the child's error and warning
logs into the caller's, and its `return` statement discards any
in-flight exception (Python semantics of `return` inside `finally`), so
the dispatcher itself never lets the escape propagate. -/
def subValidateMerge (parent : Logs) (child : Logs) : Logs :=
  { errors := parent.errors.merge child.errors.entries,
    warnings := parent.warnings.merge child.warnings.entries }

/-- Run a staged engine program.  `σ` holds the current (globally
patched) bindings of `log_error` / `log_warning`; the wrappers bind and
restore them exactly as the `try/finally` of `errors_to_warnings` /
`warnings_to_errors` does, so `σ` is passed downward only. -/
def runP (cfg : Config) : Prog → Sinks → Logs → RunRes
  | .nop, _, S => ⟨S, .none, false⟩
  | .err p m, σ, S =>
    match σ.err with
    | .toError => logErrorBody cfg p m S
    | .toWarning => logWarningBody cfg p m S
  | .warn p m, σ, S =>
    match σ.warn with
    | .toError => logErrorBody cfg p m S
    | .toWarning => logWarningBody cfg p m S
  | .orphanErr, σ, S =>
    match σ.err with
    | .toError => orphanErrorBody cfg S
    | .toWarning => ⟨S, .none, false⟩
  | .orphanWarn, σ, S =>
    match σ.warn with
    | .toError => orphanErrorBody cfg S
    | .toWarning => ⟨S, .none, false⟩
  | .exc, _, S => ⟨S, .pyerr, false⟩
  | .seq a b, σ, S =>
    let ra := runP cfg a σ S
    match ra.esc with
    | .none =>
      let rb := runP cfg b σ ra.logs
      ⟨rb.logs, rb.esc, ra.hadFF || rb.hadFF⟩
    | e => ⟨ra.logs, e, ra.hadFF⟩
  | .e2w a, σ, S => runP cfg a ⟨σ.warn, σ.warn⟩ S
  | .w2e a, σ, S => runP cfg a ⟨σ.err, σ.err⟩ S
  | .frame body gate, σ, S =>
    -- the child's `_validate`: `_reset` gives it fresh logs, then the
    -- body (`_run_validation` + `_check_common_fields`) runs; if it
    -- completes, `_raise_additional_warnings` (the gate) runs
    -- unconditionally; `modify_final_return` performs no logging.
    let rb := runP cfg body σ (Logs.fresh cfg.unique)
    match rb.esc with
    | .none =>
      let rg := runP cfg gate σ rb.logs
      ⟨subValidateMerge S rg.logs, .none, rb.hadFF || rg.hadFF⟩
    | _ => ⟨subValidateMerge S rb.logs, .none, rb.hadFF⟩
  | .swallow a, σ, S =>
    let ra := runP cfg a σ S
    ⟨ra.logs, .none, ra.hadFF⟩

/-! ## Python semantics helpers

Small models of the Python operations the engine uses on JSON data:
`==`, `in`, `len`, `str()`, `urllib.parse.urlparse` and `uuid.UUID`.
`Except Unit` marks operations that raise a runtime error
(`TypeError` / `KeyError` / `AttributeError`); which error is raised
is irrelevant to the engine, which never catches them selectively. -/

mutual

/-- Python `==` on embedded values.  Booleans compare equal to the
numbers 0/1 as in Python.  Dictionary comparison is modelled
order-sensitively (Python compares by key set; fragments arising in
one validation are compared with themselves, where the two agree). -/
def pyEq : Json → Json → Bool
  | .null, .null => true
  | .bool a, .bool b => a == b
  | .bool a, .num n => (if a then (1 : Int) else 0) == n
  | .num n, .bool a => n == (if a then (1 : Int) else 0)
  | .num a, .num b => a == b
  | .str a, .str b => a == b
  | .arr xs, .arr ys => pyEqList xs ys
  | .obj xs, .obj ys => pyEqObj xs ys
  | _, _ => false

def pyEqList : List Json → List Json → Bool
  | [], [] => true
  | x :: xs, y :: ys => pyEq x y && pyEqList xs ys
  | _, _ => false

def pyEqObj : List (String × Json) → List (String × Json) → Bool
  | [], [] => true
  | (k, v) :: xs, (l, w) :: ys => k == l && pyEq v w && pyEqObj xs ys
  | _, _ => false

end

/-- Substring occurrence test on character lists. -/
def listInfix (needle : List Char) : List Char → Bool
  | [] => needle.isEmpty
  | c :: t => needle.isPrefixOf (c :: t) || listInfix needle t

/-- Python `key in value` for a string key: key lookup on dicts,
substring test on strings, element membership on lists; `TypeError`
otherwise. -/
def pyIn (k : String) (v : Json) : Except Unit Bool :=
  match v with
  | .obj _ => .ok (v.hasKey k)
  | .str s => .ok (listInfix k.toList s.toList)
  | .arr xs => .ok (xs.any fun x => pyEq (.str k) x)
  | _ => .error ()

/-- Python `len(value)`: `TypeError` on numbers, booleans and `None`. -/
def pyLen (v : Json) : Except Unit Nat :=
  match v with
  | .str s => .ok s.length
  | .arr xs => .ok xs.length
  | .obj kvs => .ok kvs.length
  | _ => .error ()

/-- Python type name of a value, as interpolated by
`type(r_dict).__name__`. -/
def pyTypeName : Json → String
  | .null => "NoneType"
  | .bool _ => "bool"
  | .num _ => "int"
  | .str _ => "str"
  | .arr _ => "list"
  | .obj _ => "dict"

mutual

/-- Python `str(value)` (as used by `'{}'.format(value)`): strings
verbatim, containers in `repr` form with single-quoted strings. -/
def pyStr : Json → String
  | .null => "None"
  | .bool b => if b then "True" else "False"
  | .num n => toString n
  | .str s => s
  | .arr xs => "[" ++ pyReprList xs ++ "]"
  | .obj kvs => "\x7b" ++ pyReprObj kvs ++ "\x7d"

/-- Python `repr(value)`. -/
def pyRepr : Json → String
  | .null => "None"
  | .bool b => if b then "True" else "False"
  | .num n => toString n
  | .str s => "'" ++ s ++ "'"
  | .arr xs => "[" ++ pyReprList xs ++ "]"
  | .obj kvs => "\x7b" ++ pyReprObj kvs ++ "\x7d"

def pyReprList : List Json → String
  | [] => ""
  | [x] => pyRepr x
  | x :: xs => pyRepr x ++ ", " ++ pyReprList xs

def pyReprObj : List (String × Json) → String
  | [] => ""
  | [(k, v)] => "'" ++ k ++ "': " ++ pyRepr v
  | (k, v) :: kvs => "'" ++ k ++ "': " ++ pyRepr v ++ ", " ++ pyReprObj kvs

end

/-- Replace the value of the first binding of `k` (Python
`corrected[key] = v` on a dict that already has `key`), else append. -/
def objSet (kvs : List (String × Json)) (k : String) (v : Json) :
    List (String × Json) :=
  match kvs with
  | [] => [(k, v)]
  | (k', v') :: rest =>
    if k' = k then (k', v) :: rest else (k', v') :: objSet rest k v

/-! ### `urllib.parse.urlparse` -/

/-- The two components of `urlparse` the engine reads. -/
structure UrlParts where
  scheme : String
  netloc : String
  deriving DecidableEq, Inhabited

/-- Valid scheme characters after the initial letter. -/
def isSchemeChar (c : Char) : Bool :=
  c.isAlphanum || c == '+' || c == '-' || c == '.'

/-- Split off `scheme:` if present (first char a letter, scheme chars
up to a colon). -/
def splitScheme (cs : List Char) : Option (List Char × List Char) :=
  match cs with
  | c :: rest =>
    if c.isAlpha then
      let body := rest.takeWhile isSchemeChar
      let after := rest.drop body.length
      match after with
      | ':' :: tail => some (c :: body, tail)
      | _ => none
    else none
  | [] => none

/-- Model of `urllib.parse.urlparse`, restricted to the `scheme` and
`netloc` components the engine inspects. -/
def urlparse (s : String) : UrlParts :=
  let cs := s.toList
  let (scheme, rest) :=
    match splitScheme cs with
    | some (sch, tail) => (String.mk (sch.map Char.toLower), tail)
    | none => ("", cs)
  let netloc :=
    match rest with
    | '/' :: '/' :: tail =>
      String.mk (tail.takeWhile fun c => c ≠ '/' && c ≠ '?' && c ≠ '#')
    | _ => ""
  ⟨scheme, netloc⟩

/-! ### `uuid.UUID` -/

/-- Model of `uuid.UUID(hex_string)` succeeding: after removing
`urn:`/`uuid:` prefixes, surrounding braces and dashes, 32 hex digits
must remain. -/
def uuidOk (s : String) : Bool :=
  let cs := s.toList.filter (fun c => c ≠ '-')
  let cs := match cs with | '{' :: r => r | r => r
  let cs := match cs.reverse with | '}' :: r => r.reverse | _ => cs
  cs.length == 32 && cs.all fun c => c.isDigit || ('a' ≤ c && c ≤ 'f') || ('A' ≤ c && c ≤ 'F')

/-! ## Markup checking (`BaseValidator._check_html`) -/

/-- `\w` of the tag regex. -/
def isWordChar (c : Char) : Bool := c.isAlphanum || c == '_'

/-- `\s` (Python whitespace class). -/
def isPySpace (c : Char) : Bool :=
  c == ' ' || c == '\t' || c == '\n' || c == '\r' || c == '\x0b' || c == '\x0c'

/-- After the tag name, match the remainder
`((\s+\w+(\s*=\s*(?:\".*?\"|\x27.*?\x27|[\x5e\x27\">\s]+))?)+\s*|\s*)\/?>`
of `_XML_TAG_REGEX`.  Attribute values are modelled as quoted only: the
unquoted alternative of the source regex has an escaped caret, so it
matches only the literal characters `^`, quotes, `>` and whitespace and
is not exercised by any input considered in this development. -/
def tagTail : Nat → List Char → Bool
  | 0, _ => false
  | _ + 1, [] => false
  | fuel + 1, c0 :: cs0 =>
    let cs := c0 :: cs0
    let ws := cs.takeWhile isPySpace
    let rest := cs.drop ws.length
    match rest with
    | '>' :: _ => true
    | '/' :: '>' :: _ => true
    | c :: _ =>
      if ws.isEmpty then false
      else if isWordChar c then
        let name := rest.takeWhile isWordChar
        let after := rest.drop name.length
        let afterEq := after.dropWhile isPySpace
        match afterEq with
        | '=' :: tail =>
          let v := tail.dropWhile isPySpace
          match v with
          | '"' :: body =>
            let inner := body.takeWhile (fun c => c ≠ '"')
            (match body.drop inner.length with
             | '"' :: rest2 => tagTail fuel rest2
             | _ => false)
          | '\'' :: body =>
            let inner := body.takeWhile (fun c => c ≠ '\'')
            (match body.drop inner.length with
             | '\'' :: rest2 => tagTail fuel rest2
             | _ => false)
          | _ => false
        | _ => tagTail fuel after
      else false
    | [] => false

/-- Match of `_XML_TAG_REGEX` starting at a given position. -/
def tagAt (cs : List Char) : Bool :=
  match cs with
  | '<' :: rest =>
    let rest := match rest with | '/' :: r => r | r => r
    let name := rest.takeWhile isWordChar
    if name.isEmpty then false else tagTail (cs.length + 1) (rest.drop name.length)
  | _ => false

/-- `_XML_TAG_REGEX.search(value)`: some position matches. -/
def tagSearch : List Char → Bool
  | [] => false
  | c :: t => tagAt (c :: t) || tagSearch t

/-- Remainder after the first occurrence of `needle`. -/
def findSub (needle : List Char) : List Char → Option (List Char)
  | [] => if needle.isEmpty then some [] else none
  | c :: t =>
    if needle.isPrefixOf (c :: t) then some ((c :: t).drop needle.length)
    else findSub needle t

/-- `_XML_COMMENT_REGEX.search(value)`: `<!--` followed (with `DOTALL`)
by `-->`. -/
def commentSearch (cs : List Char) : Bool :=
  match findSub "<!--".toList cs with
  | some rest => (findSub "-->".toList rest).isSome
  | none => false

/-- A `]]>` occurring before the next newline (the CDATA regex is
compiled without `DOTALL`). -/
def closeBeforeNl : List Char → Bool
  | [] => false
  | c :: t =>
    if "]]>".toList.isPrefixOf (c :: t) then true
    else if c = '\n' then false
    else closeBeforeNl t

/-- `_XML_CDATA_REGEX.search(value)`. -/
def cdataSearch : List Char → Bool
  | [] => false
  | c :: t =>
    ("<![CDATA[".toList.isPrefixOf (c :: t) && closeBeforeNl ((c :: t).drop 9))
      || cdataSearch t

/-! ### A minimal well-formed XML parser (`defusedxml.ElementTree.fromstring`)

Only what `_check_html` reads is built: the element tree with tag names
and attribute names (document order).  Prologs, doctypes, comments and
entity validity are not modelled; `_check_html` rejects comments and
CDATA before parsing. -/

/-- An element of the parsed tree (`elem.tag`, `elem.attrib.keys()`,
children). -/
inductive XTree where
  | elem (tag : String) (attrs : List String) (children : List XTree)

/-- XML name characters. -/
def isXNameChar (c : Char) : Bool :=
  c.isAlphanum || c == '_' || c == '-' || c == '.' || c == ':'

/-- Parse the attribute list of a start tag up to `>` or `/>`;
returns the attribute names, whether the tag is self-closing, and the
rest of the input. -/
def parseAttrs : Nat → List Char → Option (List String × Bool × List Char)
  | 0, _ => none
  | _ + 1, [] => none
  | fuel + 1, c0 :: cs0 =>
    let rest := (c0 :: cs0).dropWhile isPySpace
    match rest with
    | '>' :: t => some ([], false, t)
    | '/' :: '>' :: t => some ([], true, t)
    | c :: _ =>
      if isXNameChar c then
        let name := rest.takeWhile isXNameChar
        let after := (rest.drop name.length).dropWhile isPySpace
        match after with
        | '=' :: t =>
          let v := t.dropWhile isPySpace
          (match v with
           | '"' :: body =>
             let inner := body.takeWhile (fun c => c ≠ '"')
             (match body.drop inner.length with
              | '"' :: rest2 =>
                (parseAttrs fuel rest2).map
                  (fun r => (String.mk name :: r.1, r.2.1, r.2.2))
              | _ => none)
           | '\'' :: body =>
             let inner := body.takeWhile (fun c => c ≠ '\'')
             (match body.drop inner.length with
              | '\'' :: rest2 =>
                (parseAttrs fuel rest2).map
                  (fun r => (String.mk name :: r.1, r.2.1, r.2.2))
              | _ => none)
           | _ => none)
        | _ => none
      else none
    | [] => none

mutual

/-- Parse one element starting at `<`. -/
def parseElem : Nat → List Char → Option (XTree × List Char)
  | 0, _ => none
  | fuel + 1, cs =>
    match cs with
    | '<' :: rest =>
      let name := rest.takeWhile isXNameChar
      if name.isEmpty then none
      else
        match parseAttrs (rest.length + 1) (rest.drop name.length) with
        | some (attrs, true, r) => some (.elem (String.mk name) attrs [], r)
        | some (attrs, false, r) =>
          (parseChildren fuel (String.mk name) r).map
            (fun res => (.elem (String.mk name) attrs res.1, res.2))
        | none => none
    | _ => none

/-- Parse text and child elements until the matching close tag. -/
def parseChildren : Nat → String → List Char → Option (List XTree × List Char)
  | 0, _, _ => none
  | fuel + 1, tag, cs =>
    let rest := cs.dropWhile (fun c => c ≠ '<')
    match rest with
    | '<' :: '/' :: r =>
      let name := r.takeWhile isXNameChar
      let after := (r.drop name.length).dropWhile isPySpace
      (match after with
       | '>' :: t => if String.mk name = tag then some ([], t) else none
       | _ => none)
    | '<' :: _ =>
      (parseElem fuel rest).bind fun res =>
        (parseChildren fuel tag res.2).map fun res2 => (res.1 :: res2.1, res2.2)
    | _ => none

end

/-- `ET.fromstring(value)`: a single root element with only whitespace
around it. -/
def xmlFromstring (s : String) : Option XTree :=
  let cs := s.toList.dropWhile isPySpace
  match parseElem (2 * s.length + 2) cs with
  | some (t, rest) => if (rest.dropWhile isPySpace).isEmpty then some t else none
  | none => none

/-! ### The `_check_html` walk -/

/-- `HTML_ALLOWED_FIELDS`: path suffixes allowed to contain HTML. -/
def htmlAllowedFields : List (List String) :=
  [["description"], ["attribution"], ["metadata", "value"], ["metadata", "label"], ["@value"]]

/-- `HTML_ALLOWED_ATTRIBUTES.get(tag, set())`. -/
def htmlAllowedAttributes (tag : String) : List String :=
  if tag = "a" then ["href"]
  else if tag = "img" then ["src", "alt"]
  else []

/-- `HTML_ALLOWED_TAGS`. -/
def htmlAllowedTags : List String := ["a", "b", "br", "i", "img", "p", "span"]

/-- `HTML_FORBIDDEN_TAGS`. -/
def htmlForbiddenTags : List String := ["script", "style", "object", "form", "input"]

/-- The warning message for a tag of uncertain validity. -/
def uncertainTagMsg (tag : String) : String :=
  "HTML tag '<" ++ tag ++ ">' of uncertain validity (valid tags are <a>, <b>, <br>, <i>, <img>, <p>, and <span>)"

mutual

/-- `check_html_element`: the recursive element walk.  Returns the
logging effects and whether descent may continue past this element
(`False` aborts the walk of all remaining elements). -/
def checkHtmlElement (p : JPath) : XTree → Prog × Bool
  | .elem tag attrs children =>
    if htmlForbiddenTags.contains tag then
      (.err p ("Forbidden tag '<" ++ tag ++ ">' in html."), false)
    else
      match attrs.find? (fun a => !(htmlAllowedAttributes tag).contains a) with
      | some bad =>
        (.err p ("HTML tag '<" ++ tag ++ ">' not allowed attribute '" ++ bad ++ "'."), false)
      | none =>
        let w : Prog :=
          if htmlAllowedTags.contains tag then .nop else .warn p (uncertainTagMsg tag)
        let rc := checkHtmlChildren p children
        (.seq w rc.1, rc.2)

/-- The child loop of `check_html_element`: stops at the first child
whose subtree aborted. -/
def checkHtmlChildren (p : JPath) : List XTree → Prog × Bool
  | [] => (.nop, true)
  | c :: rest =>
    let r := checkHtmlElement p c
    if r.2 then
      let r2 := checkHtmlChildren p rest
      (.seq r.1 r2.1, r2.2)
    else (r.1, false)

end

/-- `BaseValidator._check_html(field, value)` with the validator's
current path `path`: the staged effect program. -/
def checkHtmlC (path : JPath) (field : String) (value : String) : Prog :=
  let p := path ++ [Step.field field]
  let allowed := htmlAllowedFields.any (fun sfx => noIndexEndswith p sfx)
  let cs := value.toList
  let containsTags := tagSearch cs
  if containsTags && !(cs.headD ' ' == '<') then
    .err p "If field contains HTML, it must start with character '<'."
  else if commentSearch cs then .err p "XML comments not allowed."
  else if cdataSearch cs then .err p "CDATA sections not allowed."
  else if !containsTags then .nop
  else if !allowed then .err p "HTML not allowed in this field."
  else
    match xmlFromstring value with
    | none => .err p "Field contains tags but is not valid HTML."
    | some t => (checkHtmlElement p t).1

/-! ## Staged field checks

Each `*_field` / `*_type` method of `BaseValidator` is translated into
a function from the validator's current path and the field value to
the staged effect program together with the corrected value the method
returns.  The translations mirror the Python methods line by line. -/

/-- Sequence a list of programs. -/
def pseq : List Prog → Prog
  | [] => .nop
  | p :: ps => .seq p (pseq ps)

/-- `BaseValidator.PRESENTATION_API_URI`. -/
def presentationApiUri : String := "http://iiif.io/api/presentation/2/context.json"

/-- `BaseValidator.IMAGE_API_2`. -/
def imageApi2Uri : String := "http://iiif.io/api/image/2/context.json"

/-- `BaseValidator.IMAGE_API_1`. -/
def imageApi1Uri : String := "http://iiif.io/api/image/1/context.json"

/-- `BaseValidator._string_uri(field, value, http)`: always returns its
argument; logs the HTML check first, then the two URI-format errors. -/
def stringUriC (path : JPath) (field : String) (v : Json) (http : Bool) : Prog :=
  let p := path ++ [Step.field field]
  match v with
  | .str s =>
    let htmlP := checkHtmlC path field s
    let pieces := urlparse s
    let invalid : Prog :=
      if !(pieces.scheme ≠ "" && pieces.netloc ≠ "") then
        .err p ("URI is not valid: '" ++ s ++ "'")
      else .nop
    let httpErr : Prog :=
      if http && !(pieces.scheme == "http" || pieces.scheme == "https") then
        .err p ("URI must be http: '" ++ s ++ "'")
      else .nop
    .seq htmlP (.seq invalid httpErr)
  | _ => .err p ("URI is not string: '" ++ pyStr v ++ "'")

/-- `BaseValidator._uri_type(field, value, http)`.  In the dict case
the code performs `value['@id'] = self._string_uri(field, emb_uri, http)`;
`_string_uri` returns its argument in every branch, so the in-place
write is value-preserving (this is proved in the heap model below) and
the corrected value is the dict itself. -/
def uriTypeC (path : JPath) (field : String) (http : Bool) (v : Json) : Prog × Json :=
  let p := path ++ [Step.field field]
  match v with
  | .str s => (stringUriC path field (.str s) http, .str s)
  | .obj kvs =>
    match Json.lookup kvs "@id" with
    | some emb =>
      if emb.truthy then (stringUriC path field emb http, .obj kvs)
      else (.err p ("URI not found: '" ++ pyStr (.obj kvs) ++ "'"), .obj kvs)
    | none => (.err p ("URI not found: '" ++ pyStr (.obj kvs) ++ "'"), .obj kvs)
  | _ => (.err p ("Can't parse URI: " ++ pyStr v), v)

/-- `BaseValidator._repeatable_uri_type(field, value)`. -/
def repeatableUriC (path : JPath) (field : String) (v : Json) : Prog × Json :=
  match v with
  | .arr xs =>
    let rs := xs.map (uriTypeC path field false)
    (pseq (rs.map Prod.fst), .arr (rs.map Prod.snd))
  | _ => uriTypeC path field false v

/-- Remove every occurrence of `needle` (Python
`value.replace(needle, "")`), fueled by the input length. -/
def stripOcc (needle : List Char) : Nat → List Char → List Char
  | 0, cs => cs
  | fuel + 1, cs =>
    match cs with
    | [] => []
    | c :: t =>
      if !needle.isEmpty && needle.isPrefixOf (c :: t) then
        stripOcc needle fuel ((c :: t).drop needle.length)
      else c :: stripOcc needle fuel t

/-- `BaseValidator.id_field(value)` (lines 576–586): the `urn:uuid:`
branch, else `_http_uri_type`.  `value.startswith` on a non-string
raises `AttributeError`.  The uuid branch's `try/except
ValueError/finally: return value` ends in a `return` inside `finally`:
the invalid-UUID `log_error` in the `except` handler records its entry,
but the `FailFastException` it raises is discarded by that `return`, so
the branch is staged with the escape-swallowing node. -/
def idFieldC (path : JPath) (v : Json) : Prog × Json :=
  match v with
  | .str s =>
    if "urn:uuid:".toList.isPrefixOf s.toList then
      if uuidOk (String.mk (stripOcc "urn:uuid:".toList s.length s.toList)) then (.nop, v)
      else (.swallow (.err (path ++ [.field "@id"]) "Invalid UUID in @id."), v)
    else uriTypeC path "@id" true v
  | _ => (.exc, v)

/-- `BaseValidator._repeatable_string_type(field, value)`. -/
def repeatableStringC (path : JPath) (field : String) (v : Json) : Prog × Json :=
  let p := path ++ [Step.field field]
  match v with
  | .str s => (checkHtmlC path field s, v)
  | .arr xs =>
    (pseq (xs.map fun x =>
      match x with
      | .str _ => Prog.nop
      | _ => .err p ("Overly nested strings: '" ++ pyStr v ++ "'")), v)
  | _ => (.err p ("Got '" ++ pyStr v ++ "' when expecting string or repeated string."), v)

/-- The loop of the object branch of `_compare_dicts(schema, value)`,
with the accumulated effects and the corrected copy so far. -/
def compareDictsGo (pr : Prog) (kvs : List (String × Json)) :
    List (String × (Json → Prog × Json)) → Prog × List (String × Json)
  | [] => (pr, kvs)
  | kf :: rest =>
    match Json.lookup kvs kf.1 with
    | some cur =>
      let r := kf.2 cur
      compareDictsGo (.seq pr r.1) (objSet kvs kf.1 r.2) rest
    | none => compareDictsGo pr kvs rest

/-- The object branch of `_compare_dicts(schema, value)`: a shallow
copy of the dict, each schema key present in the input replaced by the
check function's result, in schema order. -/
def compareDictsObj (schema : List (String × (Json → Prog × Json)))
    (kvs : List (String × Json)) : Prog × List (String × Json) :=
  compareDictsGo .nop kvs schema

/-- `_compare_dicts` on a non-dict value: `key in value` raises
`TypeError` on numbers, booleans and `None`; when a schema key occurs
in a string or list value, the item assignment `corrected[key] = ...`
raises `TypeError`. -/
def compareDictsNonObj (keys : List String) (v : Json) : Prog :=
  match keys with
  | [] => .nop
  | k :: rest =>
    match pyIn k v with
    | .error _ => .exc
    | .ok true => .exc
    | .ok false => compareDictsNonObj rest v

/-- `BaseValidator._compare_dicts(schema, value)` (staged). -/
def compareDictsC (schema : List (String × (Json → Prog × Json))) (v : Json) :
    Prog × Json :=
  match v with
  | .obj kvs =>
    let r := compareDictsObj schema kvs
    (r.1, .obj r.2)
  | _ => (compareDictsNonObj (schema.map Prod.fst) v, v)

mutual

/-- `BaseValidator._str_or_val_lang_type(field, value)`.  The dict
branch applies `_compare_dicts(self._LangValPairs, value)`
(`@language` before `@value`, as in the constructor). -/
def strOrValLangC (path : JPath) (field : String) : Json → Prog × Json
  | .str s => (checkHtmlC path field s, .str s)
  | .arr xs =>
    let rs := strOrValLangListC path field xs
    (pseq (rs.map Prod.fst), .arr (rs.map Prod.snd))
  | .obj kvs =>
    if (Json.obj kvs).hasKey "@value" then
      compareDictsC
        [("@language", repeatableStringC path "@language"),
         ("@value", repeatableStringC path "@value")] (.obj kvs)
    else
      (.err (path ++ [.field field]) "Field has no '@value' key where one is required.",
       .obj kvs)
  | v => (.err (path ++ [.field field]) "Illegal type (should be str, list, or dict)", v)

/-- The list comprehension of `_str_or_val_lang_type`'s list branch. -/
def strOrValLangListC (path : JPath) (field : String) :
    List Json → List (Prog × Json)
  | [] => []
  | x :: t => strOrValLangC path field x :: strOrValLangListC path field t

end

/-- `BaseValidator._metadata_entry(value)` at the temporary path `p`
(`self._path + ('metadata',) + i`). -/
def metadataEntryC (p : JPath) (m : Json) : Prog × Json :=
  match m with
  | .obj kvs =>
    if !(Json.obj kvs).hasKey "label" then
      (.err (p ++ [.field "label"]) "metadata entries must have labels.", m)
    else if !(Json.obj kvs).hasKey "value" then
      (.err (p ++ [.field "value"]) "metadata entries must have values", m)
    else
      let rl := strOrValLangC p "label" (((Json.obj kvs).get "label").getD .null)
      let rv := strOrValLangC p "value" (((Json.obj kvs).get "value").getD .null)
      (.seq rl.1 rv.1, .obj [("label", rl.2), ("value", rv.2)])
  | _ => (.err (p ++ [.field "value"]) "Entries must be dictionaries.", m)

/-- `BaseValidator.metadata_field(value)`. -/
def metadataFieldC (path : JPath) (v : Json) : Prog × Json :=
  match v with
  | .arr xs =>
    let base := path ++ [Step.field "metadata"]
    let rs := xs.enum.map (fun ix => metadataEntryC (base ++ [Step.index ix.1]) ix.2)
    (pseq (rs.map Prod.fst), .arr (rs.map Prod.snd))
  | _ => (.err (path ++ [.field "metadata"]) "Metadata MUST be a list", v)

/-- `BaseValidator._check_required_fields(resource, r_dict, fields)`;
`f not in r_dict` follows Python `in` semantics on non-dict values. -/
def checkRequiredFieldsC (path : JPath) (resource : String) (r : Json) :
    List String → Prog
  | [] => .nop
  | f :: rest =>
    match pyIn f r with
    | .error _ => .exc
    | .ok true => checkRequiredFieldsC path resource r rest
    | .ok false =>
      .seq (.err (path ++ [.field f]) ("Key '" ++ f ++ "' is required in '" ++ resource ++ "'"))
        (checkRequiredFieldsC path resource r rest)

/-- `BaseValidator._check_recommended_fields(resource, r_dict, fields)`;
`r_dict.get(f)` raises `AttributeError` on non-dict values. -/
def checkRecommendedFieldsC (path : JPath) (resource : String) (r : Json)
    (fields : List String) : Prog :=
  match r with
  | .obj _ =>
    pseq (fields.map fun f =>
      if !((r.get f).getD .null).truthy then
        .warn (path ++ [.field f]) (resource ++ " SHOULD have " ++ f ++ " field.")
      else .nop)
  | _ => .exc

/-- `BaseValidator._check_forbidden_fields(resource, r_dict, fields)`
(key iteration in insertion order). -/
def checkForbiddenFieldsC (path : JPath) (resource : String)
    (kvs : List (String × Json)) (fields : List String) : Prog :=
  pseq (kvs.map fun kv =>
    if fields.contains kv.1 then
      .err (path ++ [.field kv.1]) ("Key '" ++ kv.1 ++ "' is not allowed in '" ++ resource ++ "'")
    else .nop)

/-- `BaseValidator._check_unknown_fields(resource, r_dict, fields)`. -/
def checkUnknownFieldsC (path : JPath) (resource : String)
    (kvs : List (String × Json)) (fields : List String) : Prog :=
  pseq (kvs.map fun kv =>
    if !fields.contains kv.1 then
      .warn (path ++ [.field kv.1]) ("Unknown key '" ++ kv.1 ++ "' in '" ++ resource ++ "'")
    else .nop)

/-- `ImageContentValidator.service_field(value)` (the override used on
image-content resources). -/
def serviceFieldC (path : JPath) (v : Json) : Prog × Json :=
  let sp := path ++ [Step.field "service"]
  let req := checkRequiredFieldsC sp "image service" v ["@id", "@context"]
  let rec2 := checkRecommendedFieldsC sp "image service" v ["profile"]
  match v with
  | .obj _ =>
    let ctxProg : Prog :=
      match v.get "@context" with
      | some c =>
        if c.truthy && !(pyEq c (.str imageApi2Uri)) then
          if !(pyEq c (.str imageApi1Uri)) then
            .err (sp ++ [.field "@context"]) "Must reference IIIF image API."
          else .warn (sp ++ [.field "@context"]) "SHOULD upgrade to 2.0 IIIF image service."
        else .nop
      | none => .nop
    (.seq req (.seq rec2 ctxProg), v)
  | _ => (.seq req rec2, v)

/-- Rewrite logging calls into orphan calls: models the direct
cross-instance call `self.ImageContentValidator.service_field(service)`
inside `_general_image_resource`, whose entries land in the other
instance's logs (wiped by its next `_reset`, never merged into this
call chain) while the fail-fast raise in `log_error` and Python errors
still unwind the caller.  `service_field` contains no frames or
coercion wrappers. -/
def orphanize : Prog → Prog
  | .err _ _ => .orphanErr
  | .warn _ _ => .orphanWarn
  | .seq a b => .seq (orphanize a) (orphanize b)
  | .e2w a => .e2w (orphanize a)
  | .w2e a => .w2e (orphanize a)
  | .swallow a => .swallow (orphanize a)
  | .frame b g => .frame b g
  | p => p

/-- `BaseValidator._general_image_resource(field, value)`. -/
def generalImageResourceC (path : JPath) (field : String) (v : Json) : Prog × Json :=
  let p := path ++ [Step.field field]
  let uriThenWarn : Prog × Json :=
    let ru := uriTypeC path field false v
    (.seq ru.1 (.warn p (field ++ " SHOULD be IIIF image service.")), ru.2)
  match v with
  | .str _ =>
    let ru := uriTypeC path field false v
    (.seq (.warn p (field ++ " SHOULD be IIIF image service.")) ru.1, ru.2)
  | .obj kvs =>
    match Json.lookup kvs "service" with
    | some sv =>
      if sv.truthy then
        match sv with
        | .obj _ =>
          if pyEq ((sv.get "@context").getD .null) (.str imageApi2Uri) then
            -- `value['service'] = self.ImageContentValidator.service_field(service)`;
            -- `service_field` returns its argument, so the write is
            -- value-preserving.  The other instance's current `_path`
            -- is immaterial: the entries are orphaned.
            (orphanize (serviceFieldC [] sv).1, .obj kvs)
          else uriThenWarn
        | _ => (.exc, v)
      else uriThenWarn
    | none => uriThenWarn
  | _ => (.err p (field ++ " type should be string or dict."), v)

/-- Whether a program contains a `log_error` call.  Used to stage
`mute_errors`: the set of captured errors of the muted straight-line
URI checks is nonempty exactly when a `log_error` call occurs. -/
def hasErrCall : Prog → Bool
  | .err _ _ => true
  | .orphanErr => true
  | .seq a b => hasErrCall a || hasErrCall b
  | .e2w a => hasErrCall a
  | .w2e a => hasErrCall a
  | .swallow a => hasErrCall a
  | _ => false

/-- `mute_errors`: `log_error` is patched to capture entries locally,
never adding to the log and never raising.  (No coercion wrapper or
frame occurs inside the muted `_uri_type` call.) -/
def muteErrProg : Prog → Prog
  | .err _ _ => .nop
  | .orphanErr => .nop
  | .seq a b => .seq (muteErrProg a) (muteErrProg b)
  | .e2w a => .e2w (muteErrProg a)
  | .w2e a => .w2e (muteErrProg a)
  | .swallow a => .swallow (muteErrProg a)
  | p => p

/-- `BaseValidator.viewing_hint_field(value)` for a validator whose
`VIEW_HINTS` collection holds `viewHints`; `vhIsSet` records whether
that collection is a set/dict (membership of an unhashable value then
raises `TypeError`) rather than a list. -/
def viewingHintC (viewHints : List String) (vhIsSet : Bool) (path : JPath)
    (v : Json) : Prog × Json :=
  let member := match v with | .str s => viewHints.contains s | _ => false
  if member then (.nop, v)
  else
    match v, vhIsSet with
    | .obj _, true => (.exc, v)
    | .arr _, true => (.exc, v)
    | _, _ =>
      let ru := uriTypeC path "viewingHint" false v
      let e : Prog :=
        if hasErrCall ru.1 then
          .err (path ++ [.field "viewingHint"])
            ("viewingHint '" ++ pyStr v ++ "' is not valid and not uri.")
        else .nop
      (.seq (muteErrProg ru.1) e, v)

/-- `BaseValidator.viewing_dir_field(value)` against the sequence's
`VIEW_DIRS` set. -/
def viewingDirC (viewDirs : List String) (vdIsSet : Bool) (path : JPath)
    (v : Json) : Prog × Json :=
  let member := match v with | .str s => viewDirs.contains s | _ => false
  if member then (.nop, v)
  else
    match v, vdIsSet with
    | .obj _, true => (.exc, v)
    | .arr _, true => (.exc, v)
    | _, _ =>
      (.err (path ++ [.field "viewingDirection"])
        ("viewingDirection '" ++ pyStr v ++ "' is not valid and not uri."), v)

/-- `height_field` / `width_field`: `isinstance(value, int)` is true
for Python booleans as well. -/
def intFieldC (field : String) (path : JPath) (v : Json) : Prog × Json :=
  match v with
  | .num _ => (.nop, v)
  | .bool _ => (.nop, v)
  | _ => (.err (path ++ [.field field]) (field ++ " must be int."), v)

/-! ## Per-resource validators -/

/-- The static per-resource data of a validator: the field
classification sets and the virtual members used by the common-field
pass (`type_field`, `service_field`, `VIEW_HINTS`).  Set literals of
the source are listed in source order; Python set iteration order is
unspecified, and only the membership tests depend on them. -/
structure VSpec where
  known : List String
  forbidden : List String
  required : List String
  recommended : List String
  viewHints : List String
  vhIsSet : Bool
  typeFieldC : JPath → Json → Prog × Json
  serviceC : JPath → Json → Prog × Json

/-- A `type_field` that logs `msg` unless the value equals
`expected`. -/
def typeFieldEqC (expected msg : String) (path : JPath) (v : Json) : Prog × Json :=
  if pyEq v (.str expected) then (.nop, v)
  else (.err (path ++ [.field "@type"]) msg, v)

/-- `BaseValidator.COMMON_FIELDS` (membership only). -/
def commonFieldNames : List String :=
  ["label", "metadata", "description", "thumbnail", "attribution", "license", "logo",
   "@id", "@type", "viewingHint", "seeAlso", "service", "related", "rendering", "within"]

/-- `BaseValidator._common_fields_mapping` in constructor order
(lines 111–127). -/
def commonFieldsC (spec : VSpec) (path : JPath) :
    List (String × (Json → Prog × Json)) :=
  [("@id", fun v => idFieldC path v),
   ("label", fun v => strOrValLangC path "label" v),
   ("metadata", fun v => metadataFieldC path v),
   ("description", fun v => strOrValLangC path "description" v),
   ("thumbnail", fun v => generalImageResourceC path "thumbnail" v),
   ("logo", fun v => generalImageResourceC path "logo" v),
   ("attribution", fun v => strOrValLangC path "attribution" v),
   ("@type", spec.typeFieldC path),
   ("license", fun v => repeatableUriC path "license" v),
   ("related", fun v => repeatableUriC path "related" v),
   ("rendering", fun v => repeatableUriC path "rendering" v),
   ("service", spec.serviceC path),
   ("seeAlso", fun v => repeatableUriC path "seeAlso" v),
   ("within", fun v => repeatableUriC path "within" v),
   ("viewingHint", fun v => viewingHintC spec.viewHints spec.vhIsSet path v)]

/-- `BaseValidator._check_common_fields(val)`. -/
def checkCommonFieldsC (spec : VSpec) (path : JPath) (v : Json) : Prog × Json :=
  compareDictsC (commonFieldsC spec path) v

/-- `BaseValidator._check_all_key_constraints(resource, r_dict)`:
non-dict input logs one error and stops; otherwise forbidden,
required, recommended, unknown and the first common-field pass run in
order (the common pass's corrected value is discarded by every
caller, its effects remain). -/
def checkAllKeyConstraintsC (spec : VSpec) (resource : String) (path : JPath)
    (r : Json) : Prog :=
  match r with
  | .obj kvs =>
    pseq [checkForbiddenFieldsC path resource kvs spec.forbidden,
          checkRequiredFieldsC path resource r spec.required,
          checkRecommendedFieldsC path resource r spec.recommended,
          checkUnknownFieldsC path resource kvs spec.known,
          (checkCommonFieldsC spec path r).1]
  | _ =>
    .err (path ++ [.field resource])
      ("'" ++ resource ++ "' must be json-object, not " ++ pyTypeName r)

/-- `ImageContentValidator` class constants. -/
def imageContentSpec : VSpec where
  known := commonFieldNames ++ ["@context", "height", "width", "format"]
  forbidden := ["viewingDirection", "navDate", "startCanvas", "first", "last", "total",
                "next", "prev", "startIndex", "collections", "manifests", "members",
                "sequences", "structures", "canvases", "resources", "otherContent",
                "images", "ranges"]
  required := ["@type", "@id"]
  recommended := []
  viewHints := []
  vhIsSet := true
  typeFieldC := typeFieldEqC "dctypes:Image" "@type MUST be 'dctypes:Image'"
  serviceC := serviceFieldC

/-- `AnnotationValidator` class constants. -/
def annotationSpec : VSpec where
  known := commonFieldNames ++ ["motivation", "resource", "on"]
  forbidden := ["format", "height", "width", "viewingDirection", "navDate", "startCanvas",
                "first", "last", "total", "next", "prev", "startIndex", "collections",
                "manifests", "members", "sequences", "structures", "canvases", "resources",
                "otherContent", "images", "ranges"]
  required := ["@type", "on", "motivation"]
  recommended := ["@id"]
  viewHints := []
  vhIsSet := true
  typeFieldC := typeFieldEqC "oa:Annotation" "@type must be 'oa:Annotation'."
  serviceC := fun path v => repeatableUriC path "service" v

/-- `CanvasValidator` class constants. -/
def canvasSpec : VSpec where
  known := commonFieldNames ++ ["height", "width", "otherContent", "images"]
  forbidden := ["format", "viewingDirection", "navDate", "startCanvas", "first", "last",
                "total", "next", "prev", "startIndex", "collections", "manifests",
                "members", "sequences", "structures", "canvases", "resources", "ranges"]
  required := ["label", "@id", "@type", "height", "width"]
  recommended := []
  viewHints := ["non-paged", "facing-pages"]
  vhIsSet := true
  typeFieldC := typeFieldEqC "sc:Canvas" "@type must be 'sc:Canvas'."
  serviceC := fun path v => repeatableUriC path "service" v

/-- `SequenceValidator` class constants. -/
def sequenceSpec : VSpec where
  known := commonFieldNames ++ ["viewingDirection", "startCanvas", "canvases"]
  forbidden := ["format", "height", "width", "navDate", "first", "last", "total", "next",
                "prev", "startIndex", "collections", "manifests", "sequences", "structures",
                "resources", "otherContent", "images", "ranges"]
  required := ["@type", "canvases"]
  recommended := []
  viewHints := ["individuals", "paged", "continuous"]
  vhIsSet := true
  typeFieldC := typeFieldEqC "sc:Sequence" "@type must be 'sc:Sequence'"
  serviceC := fun path v => repeatableUriC path "service" v

/-- `ManifestValidator` class constants (`VIEW_HINTS` is a list on the
manifest). -/
def manifestSpec : VSpec where
  known := commonFieldNames ++ ["viewingDirection", "navDate", "sequences", "structures", "@context"]
  forbidden := ["format", "height", "width", "startCanvas", "first", "last", "total",
                "next", "prev", "startIndex", "collections", "manifests", "members",
                "canvases", "resources", "otherContent", "images", "ranges"]
  required := ["label", "@context", "@id", "@type", "sequences"]
  recommended := ["metadata", "description", "thumbnail"]
  viewHints := ["individuals", "paged", "continuous"]
  vhIsSet := false
  typeFieldC := typeFieldEqC "sc:Manifest" "@type must be 'sc:Manifest'."
  serviceC := fun path v => repeatableUriC path "service" v

/-- `ImageContentValidator`: the frame program of a `_sub_validate`
dispatch to it and the value the dispatch returns
(`corrected_doc` when truthy, else the fragment; the corrected value
is that of a completed run — an aborted run's return feeds only the
corrected output, never any check). -/
def imageContentValidateC (path : JPath) (j : Json) : Prog × Json :=
  let p1 := checkAllKeyConstraintsC imageContentSpec "resource" path j
  let schema : List (String × (Json → Prog × Json)) :=
    [("@id", fun v => idFieldC path v),
     ("@type", imageContentSpec.typeFieldC path),
     ("height", intFieldC "height" path),
     ("width", intFieldC "width" path),
     ("service", fun v => serviceFieldC path v)]
  let r := compareDictsC schema j
  let c2 := checkCommonFieldsC imageContentSpec path r.2
  let corr := c2.2
  (.frame (.seq p1 (.seq r.1 c2.1)) .nop, if corr.truthy then corr else j)

/-- `AnnotationValidator` (dispatched with the owning canvas's
`canvas_uri`). -/
def annotationValidateC (path : JPath) (canvasUri : Option Json) (j : Json) :
    Prog × Json :=
  let p1 := checkAllKeyConstraintsC annotationSpec "annotation" path j
  let onC : Json → Prog × Json := fun v =>
    match canvasUri with
    | some cu =>
      if cu.truthy && !(pyEq v cu) then
        (.err (path ++ [.field "on"]) "'on' must reference the canvas URI.", v)
      else (.nop, v)
    | none => (.nop, v)
  let motivationC : Json → Prog × Json := fun v =>
    if pyEq v (.str "sc:painting") then (.nop, v)
    else (.err (path ++ [.field "motivation"]) "motivation must be 'sc:painting'.", v)
  let resourceC : Json → Prog × Json := fun v =>
    imageContentValidateC (path ++ [Step.field "resource"]) v
  let schema : List (String × (Json → Prog × Json)) :=
    [("@id", fun v => idFieldC path v),
     ("@type", annotationSpec.typeFieldC path),
     ("motivation", motivationC),
     ("on", onC),
     ("height", intFieldC "height" path),
     ("width", intFieldC "width" path),
     ("resource", resourceC)]
  let r := compareDictsC schema j
  let c2 := checkCommonFieldsC annotationSpec path r.2
  let corr := c2.2
  (.frame (.seq p1 (.seq r.1 c2.1)) .nop, if corr.truthy then corr else j)

/-- `CanvasValidator`: `_run_validation` first reads
`self._json['@id']` (raising `KeyError`/`TypeError` on fragments
without one), then runs the key constraints, the `CanvasSchema` and
the common pass; `_raise_additional_warnings` is the multi-image
thumbnail check. -/
def canvasValidateC (path : JPath) (j : Json) : Prog × Json :=
  match j.get "@id" with
  | none => (.frame .exc .nop, j)
  | some canvasUri =>
    let p1 := checkAllKeyConstraintsC canvasSpec "canvas" path j
    let imagesC : Json → Prog × Json := fun v =>
      match v with
      | .arr xs =>
        let p2 := path ++ [Step.field "images"]
        let rs := xs.map (annotationValidateC p2 (some canvasUri))
        (pseq (rs.map Prod.fst), .arr (rs.map Prod.snd))
      | _ =>
        if !v.truthy then
          (.warn (path ++ [.field "images"]) "'images' SHOULD have values.", v)
        else (.err (path ++ [.field "images"]) "'images' must be a list.", v)
    let otherContentC : Json → Prog × Json := fun v =>
      match v with
      | .arr xs =>
        let rs := xs.map (fun item =>
          match item.get "@id" with
          | some idv => uriTypeC path "otherContent" false idv
          | none => (Prog.exc, item))
        (pseq (rs.map Prod.fst), .arr (rs.map Prod.snd))
      | _ => (.err (path ++ [.field "otherContent"]) "otherContent must be a list.", v)
    let schema : List (String × (Json → Prog × Json)) :=
      [("@id", fun v => idFieldC path v),
       ("@type", canvasSpec.typeFieldC path),
       ("label", fun v => strOrValLangC path "label" v),
       ("height", intFieldC "height" path),
       ("width", intFieldC "width" path),
       ("viewingHint", fun v => viewingHintC canvasSpec.viewHints canvasSpec.vhIsSet path v),
       ("other_content", otherContentC),
       ("images", imagesC)]
    let r := compareDictsC schema j
    let c2 := checkCommonFieldsC canvasSpec path r.2
    let gate : Prog :=
      match c2.2.get "images" with
      | none => .nop
      | some iv =>
        match pyLen iv with
        | .error _ => .exc
        | .ok n =>
          if n > 1 && !((c2.2.get "thumbnail").getD .null).truthy then
            .warn (path ++ [.field "thumbnail"])
              "Canvas SHOULD have a thumbnail when there is more than one image"
          else .nop
    let corr := c2.2
    (.frame (.seq p1 (.seq r.1 c2.1)) gate, if corr.truthy then corr else j)

/-- `SequenceValidator.context_field` (embedded sequences may not
declare a context). -/
def seqContextFieldC (emb : Bool) (path : JPath) (v : Json) : Prog × Json :=
  if emb then
    (.err (path ++ [.field "@context"]) "@context field not allowed in embedded sequence.", v)
  else if !(pyEq v (.str presentationApiUri)) then
    (.err (path ++ [.field "@context"]) "unknown context.", v)
  else (.nop, v)

/-- The linked-sequence schema's entry for `canvases`
(sequence_validator.py line 55): it stores the bound method
`self._not_allowed` itself — whose parameters are `field` and `value`
(base_validator.py 389) — not a `functools.partial` as every other
two-parameter check is stored; `_compare_dicts`'s one-argument call
`fn(corrected[key])` therefore raises `TypeError` before the method
body can log its "'canvases' is not allowed here" error. -/
def notAllowedUnpartialed (v : Json) : Prog × Json := (.exc, v)

/-- `SequenceValidator` with the `emb` flag of
`_validate_sequence(emb)`. -/
def sequenceValidateC (emb : Bool) (path : JPath) (j : Json) : Prog × Json :=
  let p1 := checkAllKeyConstraintsC sequenceSpec "sequence" path j
  let canvasesC : Json → Prog × Json := fun v =>
    match v with
    | .arr xs =>
      if xs.isEmpty then
        (.err (path ++ [.field "canvases"]) "'canvases' MUST have at least one entry", v)
      else
        let p2 := path ++ [Step.field "canvases"]
        let rs := xs.map (canvasValidateC p2)
        (pseq (rs.map Prod.fst), .arr (rs.map Prod.snd))
    | _ => (.err (path ++ [.field "canvases"]) "'canvases' MUST be a list.", v)
  let schema : List (String × (Json → Prog × Json)) :=
    if emb then
      [("@type", sequenceSpec.typeFieldC path),
       ("@context", seqContextFieldC emb path),
       ("@id", fun v => idFieldC path v),
       ("startCanvas", fun v => uriTypeC path "startCanvas" false v),
       ("viewingDirection", fun v =>
         viewingDirC ["left-to-right", "right-to-left", "top-to-bottom", "bottom-to-top"] true path v),
       ("viewingHint", fun v => viewingHintC sequenceSpec.viewHints sequenceSpec.vhIsSet path v),
       ("canvases", canvasesC)]
    else
      [("@type", sequenceSpec.typeFieldC path),
       ("@id", fun v => idFieldC path v),
       ("canvases", notAllowedUnpartialed)]
  let r := compareDictsC schema j
  let c2 := checkCommonFieldsC sequenceSpec path r.2
  let corr := c2.2
  (.frame (.seq p1 (.seq r.1 c2.1)) .nop, if corr.truthy then corr else j)

/-- `ManifestValidator.context_field`. -/
def manifestContextFieldC (path : JPath) (v : Json) : Prog × Json :=
  let msg := "'@context' must be set to '" ++ presentationApiUri ++ "'"
  match v with
  | .str s =>
    if s ≠ presentationApiUri then (.err (path ++ [.field "@context"]) msg, v)
    else (.nop, v)
  | .arr xs =>
    if !(xs.any fun x => pyEq (.str presentationApiUri) x) then
      (.err (path ++ [.field "@context"]) msg, v)
    else (.nop, v)
  | _ => (.nop, v)

/-- `ManifestValidator`. -/
def manifestValidateC (path : JPath) (j : Json) : Prog × Json :=
  let p1 := checkAllKeyConstraintsC manifestSpec "manifest" path j
  let sequencesC : Json → Prog × Json := fun v =>
    match v with
    | .arr xs =>
      let p2 := path ++ [Step.field "sequences"]
      let rs := xs.enum.map (fun ix =>
        sequenceValidateC (ix.1 == 0) (p2 ++ [Step.index ix.1]) ix.2)
      (pseq (rs.map Prod.fst), .arr (rs.map Prod.snd))
    | _ => (.err (path ++ [.field "sequences"]) "'sequences' MUST be a list", v)
  let schema : List (String × (Json → Prog × Json)) :=
    [("@context", fun v => manifestContextFieldC path v),
     ("structures", fun v => (.nop, v)),
     ("sequences", sequencesC)]
  let r := compareDictsC schema j
  let c2 := checkCommonFieldsC manifestSpec path r.2
  let corr := c2.2
  (.frame (.seq p1 (.seq r.1 c2.1)) .nop, if corr.truthy then corr else j)

/-! ## The top-level router -/

/-- Modelled from the spec: the current-generation top-level router
(`IIIFValidator.validate`, §4.5 of the spec) is not among the source
files — `src/tripoli/tripoli.py` holds only the older engine, while
the engine under verification lives in `resource_validators/` and
`mixins.py`.  Per the spec the router reads the declared `@type`,
selects the matching validator from a static type→validator table,
records a single "unknown/missing type" Error at the empty path as a
terminal condition when no match exists, and otherwise delegates
through the cross-resource dispatcher, each call resetting state
first. -/
def validateDoc (cfg : Config) (D : Json) : RunRes :=
  let start : Logs := Logs.fresh cfg.unique
  let unknownRes : RunRes :=
    ⟨{ start with
        errors := start.errors.add
          ⟨"Unknown @type: '" ++ pyStr ((D.get "@type").getD .null) ++ "'", []⟩ },
      .none, false⟩
  match D.get "@type" with
  | some (.str t) =>
    if t = "sc:Manifest" then runP cfg (manifestValidateC [] D).1 Sinks.init start
    else if t = "sc:Sequence" then runP cfg (sequenceValidateC true [] D).1 Sinks.init start
    else if t = "sc:Canvas" then runP cfg (canvasValidateC [] D).1 Sinks.init start
    else if t = "oa:Annotation" then runP cfg (annotationValidateC [] none D).1 Sinks.init start
    else unknownRes
  | _ => unknownRes

/-! ## Direct models of `_sub_validate` and `_validate` -/

/-- Result of a `_sub_validate` call. -/
structure SubVRes where
  logs : Logs
  ret : Json
  esc : Escape

/-- `SubValidationMixin._sub_validate` (mixins.py lines 70–93), given
the state the child's `_validate` call ended in: its logs, the escape
the call unwound with (if any), the child's `corrected_doc` attribute
(`none` models Python `None`; after an aborted run the attribute still
holds its value from before the run, `_reset` not clearing it), and
`subschema._json`.  The `finally` block merges both logs into the
caller unconditionally, and its `return` statement discards any
in-flight exception (Python semantics of `return` inside `finally`),
so the dispatcher always returns normally. -/
def subValidateM (parent : Logs) (childLogs : Logs) (childEsc : Escape)
    (childCorrected : Option Json) (childJson : Json) : SubVRes :=
  let _ := childEsc
  let merged := subValidateMerge parent childLogs
  let ret :=
    match childCorrected with
    | some c => if c.truthy then c else childJson
    | none => childJson
  ⟨merged, ret, .none⟩

/-- Result of a `_validate` call. -/
structure ValidateRes where
  logs : Logs
  esc : Escape
  hadFF : Bool
  isValid : Bool

/-- `BaseValidator._validate` (lines 222–240): `_reset` gives the
validator fresh logs; the `try` block runs `_run_validation` plus
`_check_common_fields` (`body`) and then `_raise_additional_warnings`
(`gate`; `modify_final_return` performs no logging); the `finally`
block sets `is_valid` to whether `self._errors` is empty, on the
normal path and on every unwinding path alike. -/
def runValidate (cfg : Config) (σ : Sinks) (body gate : Prog) : ValidateRes :=
  let rb := runP cfg body σ (Logs.fresh cfg.unique)
  match rb.esc with
  | .none =>
    let rg := runP cfg gate σ rb.logs
    ⟨rg.logs, rg.esc, rb.hadFF || rg.hadFF, !rg.logs.errors.truthy⟩
  | e => ⟨rb.logs, e, rb.hadFF, !rb.logs.errors.truthy⟩

/-! ## The old-generation top-level router (`tripoli.py`) -/

/-- The four validators of the old `IIIFValidator._TYPE_MAP`
(tripoli.py lines 624–629). -/
inductive OldVType where
  | manifest | sequence | canvas | imageResource
  deriving DecidableEq

/-- The observable state a dispatched old-generation validator's
`_validate` leaves behind (an abstraction of `BaseValidatorMixin`;
the unknown-type claim never reaches a dispatch). -/
structure OldSubState where
  errors : List Entry
  isValid : Option Bool

/-- `IIIFValidator._TYPE_MAP.get(doc_type)` for a string key. -/
def oldTypeMap (t : String) : Option OldVType :=
  if t = "sc:Manifest" then some .manifest
  else if t = "sc:Sequence" then some .sequence
  else if t = "sc:Canvas" then some .canvas
  else if t = "oa:Annotation" then some .imageResource
  else none

/-- Python exception kinds the old router can leak to its caller. -/
inductive PyExc where
  | attributeError
  | typeError
  deriving DecidableEq

/-- Result of `IIIFValidator.validate`: the router's error set, its
validity flag, and the exception the call raised to the consumer, if
any. -/
structure OldRouterRes where
  errors : List Entry
  isValid : Option Bool
  exc : Option PyExc

/-- `IIIFValidator.validate(json_dict)` of `tripoli.py`
(lines 641–661) on an already-parsed document (the
`isinstance(json_dict, str)` branch is skipped).  `dispatch` abstracts
the linked validators.  The translation keeps the text's control flow:
after recording the unknown-type error and setting `is_valid = False`
the method does *not* return, so `self._sub_validate(validator,
json_dict, path=None)` still runs, and with `validator = None` the
attribute access `subschema._validate` raises `AttributeError`. -/
def iiifValidateOld (dispatch : OldVType → Json → OldSubState) (D : Json) :
    OldRouterRes :=
  let docType : Option Json := D.get "@type"
  match docType with
  | some (.obj _) => ⟨[], none, some .typeError⟩  -- unhashable dict key in `_TYPE_MAP.get`
  | some (.arr _) => ⟨[], none, some .typeError⟩  -- unhashable list key
  | _ =>
    let validator : Option OldVType :=
      match docType with
      | some (.str t) => oldTypeMap t
      | _ => none
    match validator with
    | none =>
      ⟨[⟨"Unknown @type: '" ++ pyStr (docType.getD .null) ++ "'", []⟩], some false,
       some .attributeError⟩
    | some v =>
      let sub := dispatch v D
      ⟨sub.errors, sub.isValid, none⟩

/-! ## Heap model for the schema-application frame effect

`_compare_dicts` shallow-copies the fragment (`copy.copy`) and then
replaces schema fields on the copy.  The only in-place writes the
check functions perform on *shared* objects are
`value['@id'] = self._string_uri(field, emb_uri, http)` in `_uri_type`
(lines 444–461) and
`value['service'] = self.ImageContentValidator.service_field(service)`
in `_general_image_resource`; both callees return their argument
unchanged in every branch, so the writes are value-preserving.  Here
dictionaries are heap-allocated and the writes are performed
literally, to prove pre-existing heap content unchanged. -/

/-- Heap addresses. -/
abbrev Addr := Nat

/-- A Python value: immediate scalars, lists (whose spines the engine
never mutates) and dict references. -/
inductive HVal where
  | imm (j : Json) : HVal
  | list (xs : List HVal) : HVal
  | ref (a : Addr) : HVal

/-- A heap-allocated dict. -/
structure HObj where
  fields : List (String × HVal)

/-- The heap. -/
abbrev Heap := List (Addr × HObj)

/-- First binding of an address. -/
def hlookup : Heap → Addr → Option HObj
  | [], _ => none
  | (b, o) :: t, a => if b = a then some o else hlookup t a

/-- Overwrite the first binding of an address. -/
def hset : Heap → Addr → HObj → Heap
  | [], _, _ => []
  | (b, o') :: t, a, o => if b = a then (a, o) :: t else (b, o') :: hset t a o

/-- Dict field read. -/
def objGetH : List (String × HVal) → String → Option HVal
  | [], _ => none
  | (k', v) :: t, k => if k' = k then some v else objGetH t k

/-- Dict field write (first binding). -/
def objSetH : List (String × HVal) → String → HVal → List (String × HVal)
  | [], k, v => [(k, v)]
  | (k', v') :: t, k, v =>
    if k' = k then (k', v) :: t else (k', v') :: objSetH t k v

/-- An address not bound in the heap. -/
def freshAddr (h : Heap) : Addr :=
  (h.map Prod.fst).foldr max 0 + 1

/-- Python truthiness on heap values. -/
def hvalTruthy (h : Heap) : HVal → Bool
  | .imm j => j.truthy
  | .list xs => !xs.isEmpty
  | .ref a =>
    match hlookup h a with
    | some o => !o.fields.isEmpty
    | none => false

/-- `_string_uri(field, value, http)`: every branch ends in
`return value`; the function only logs. -/
def stringUriH (v : HVal) : HVal := v

/-- `ImageContentValidator.service_field(value)`: ends in
`return value`; the function only logs. -/
def serviceFieldH (v : HVal) : HVal := v

/-- `_uri_type(field, value, http)` on the heap: the dict branch
performs `value['@id'] = self._string_uri(field, emb_uri, http)` when
`value.get('@id')` is truthy, writing back what it read. -/
def uriTypeH (h : Heap) (v : HVal) : Heap × HVal :=
  match v with
  | .ref a =>
    match hlookup h a with
    | some o =>
      match objGetH o.fields "@id" with
      | some emb =>
        if hvalTruthy h emb then
          (hset h a ⟨objSetH o.fields "@id" (stringUriH emb)⟩, .ref a)
        else (h, .ref a)
      | none => (h, .ref a)
    | none => (h, v)
  | _ => (h, v)

/-- `_repeatable_uri_type(field, value)` on the heap: maps `_uri_type`
over a list, else delegates. -/
def repeatableUriH (h : Heap) (v : HVal) : Heap × HVal :=
  match v with
  | .list xs =>
    let r := xs.foldl
      (fun acc x =>
        let rx := uriTypeH acc.1 x
        (rx.1, acc.2 ++ [rx.2]))
      (h, ([] : List HVal))
    (r.1, .list r.2)
  | _ => uriTypeH h v

/-- `_general_image_resource(field, value)` on the heap: the
IIIF-image-service branch performs
`value['service'] = self.ImageContentValidator.service_field(service)`,
writing back what it read; every other branch only logs or delegates
to `_uri_type`. -/
def generalImageResourceH (h : Heap) (v : HVal) : Heap × HVal :=
  match v with
  | .ref a =>
    match hlookup h a with
    | some o =>
      match objGetH o.fields "service" with
      | some sv =>
        if hvalTruthy h sv then
          match sv with
          | .ref sa =>
            match hlookup h sa with
            | some so =>
              if (match objGetH so.fields "@context" with
                  | some (.imm (.str s)) => s == imageApi2Uri
                  | _ => false) then
                (hset h a ⟨objSetH o.fields "service" (serviceFieldH sv)⟩, .ref a)
              else uriTypeH h v
            | none => uriTypeH h v
          | _ => (h, v)  -- `service.get("@context")` raises AttributeError
        else uriTypeH h v
      | none => uriTypeH h v
    | none => (h, v)
  | _ => (h, v)

/-- A heap-level schema: field name to check function. -/
abbrev HSchema := List (String × (Heap → HVal → Heap × HVal))

/-- `_compare_dicts(schema, value)` on the heap:
`corrected = copy.copy(value)` allocates a fresh dict with the same
bindings, then each schema field present is replaced on the copy by
the check function's result. -/
def compareDictsH (schema : HSchema) (h : Heap) (v : HVal) : Heap × HVal :=
  match v with
  | .ref a =>
    match hlookup h a with
    | some o =>
      let c := freshAddr h
      let h1 := h ++ [(c, o)]
      let r := schema.foldl
        (fun acc kf =>
          match hlookup acc.1 c with
          | some co =>
            match objGetH co.fields kf.1 with
            | some cur =>
              let rx := kf.2 acc.1 cur
              (hset rx.1 c ⟨objSetH co.fields kf.1 rx.2⟩, ())
            | none => acc
          | none => acc)
        (h1, ())
      (r.1, .ref c)
    | none => (h, v)
  | _ => (h, v)

/-- The URI-flavored part of the common-field schema
(`_common_fields_mapping`), the checks that perform in-place writes. -/
def commonUriSchemaH : HSchema :=
  [("@id", uriTypeH),
   ("thumbnail", generalImageResourceH),
   ("logo", generalImageResourceH),
   ("license", repeatableUriH),
   ("related", repeatableUriH),
   ("rendering", repeatableUriH),
   ("service", repeatableUriH),
   ("seeAlso", repeatableUriH),
   ("within", repeatableUriH)]

/-! ## Concrete documents and configurations used by the theorems -/

/-- Standard collect-all configuration with deduplicated logging. -/
def cfgStd : Config := ⟨false, true, true, true⟩

/-- Fail-fast configuration, otherwise standard. -/
def cfgFF : Config := ⟨true, true, true, true⟩

/-- Collect-all configuration without deduplication
(`uniqueLogging=false`). -/
def cfgNoUnique : Config := ⟨false, true, true, false⟩

/-- A canvas fragment that is valid except for a non-integer
`height`. -/
def badCanvas : Json :=
  .obj [("@id", .str "http://example.org/c"), ("@type", .str "sc:Canvas"),
        ("label", .str "c"), ("height", .str "x"), ("width", .num 5)]

/-- A sequence document whose `canvases` list holds `n` structurally
identical copies of `badCanvas`. -/
def seqDoc (n : Nat) : Json :=
  .obj [("@type", .str "sc:Sequence"), ("canvases", .arr (List.replicate n badCanvas))]

/-- The single error entry of one `badCanvas` validation inside a
sequence (the canvas dispatch path `('canvases',)` carries no index). -/
def heightEntry : Entry :=
  ⟨"height must be int.", [Step.field "canvases", Step.field "height"]⟩

/-- First embedded sequence of the fail-fast manifest: its canvas has
the bad height. -/
def ffSeq1 : Json :=
  .obj [("@type", .str "sc:Sequence"), ("canvases", .arr [badCanvas])]

/-- Second sequence of the fail-fast manifest: it lacks the required
`canvases` key, which `_check_all_key_constraints` (run for embedded
and linked sequences alike) logs as an error. -/
def ffSeq2 : Json :=
  .obj [("@type", .str "sc:Sequence"), ("@id", .str "http://example.org/s2")]

/-- A manifest whose only violations are inside its two sequences: the
first error arises inside the first sequence's canvas sub-validation,
the second inside the second sequence's sub-validation. -/
def ffManifest : Json :=
  .obj [("@type", .str "sc:Manifest"), ("@context", .str presentationApiUri),
        ("@id", .str "http://example.org/m"), ("label", .str "m"),
        ("sequences", .arr [ffSeq1, ffSeq2])]

/-- The two error entries of `ffManifest`. -/
def ffEntry1 : Entry :=
  ⟨"height must be int.",
   [Step.field "sequences", Step.index 0, Step.field "canvases", Step.field "height"]⟩

/-- Second error entry of `ffManifest`: the missing required key of
its second sequence. -/
def ffEntry2 : Entry :=
  ⟨"Key 'canvases' is required in 'sequence'",
   [Step.field "sequences", Step.index 1, Step.field "canvases"]⟩

/-- `n` repeated `VLog.add` insertions of the same entry. -/
def addN (e : Entry) (n : Nat) (L : VLog) : VLog :=
  (List.replicate n e).foldl VLog.add L

/-- The `n`-independent key-constraint part of the staged program of a
`seqDoc` validation (all its checks pass, so it is effect-free). -/
def seqDocP1 : Prog := checkAllKeyConstraintsC sequenceSpec "sequence" [] (seqDoc 1)

/-- The `@type` check of the staged `seqDoc` schema pass
(`sc:Sequence` is correct, so it is effect-free). -/
def seqDocT1 : Prog := (sequenceSpec.typeFieldC [] (.str "sc:Sequence")).1

/-- The `n`-independent second common-field pass of a `seqDoc`
validation (its only applicable check, `@type`, passes). -/
def seqDocC2 : Prog := (checkCommonFieldsC sequenceSpec [] (seqDoc 1)).1

/-- The frame program of one `badCanvas` sub-validation inside a
sequence's `canvases` loop. -/
def canvasFrame : Prog := (canvasValidateC [Step.field "canvases"] badCanvas).1

/-- Membership-based inclusion of entry lists (up to the log's own
index-insensitive entry equality). -/
def memSubE (xs ys : List Entry) : Prop :=
  ∀ e, memEq e xs = true → memEq e ys = true

/-! # Theorems -/

theorem entryEq_refl (e : Entry) : entryEq e e = true := by
  simp [entryEq]

theorem entryEq_symm {a b : Entry} (h : entryEq a b = true) : entryEq b a = true := by
  simp only [entryEq, Bool.and_eq_true, decide_eq_true_eq] at *
  exact ⟨h.1.symm, h.2.symm⟩

theorem entryEq_trans {a b c : Entry} (h1 : entryEq a b = true)
    (h2 : entryEq b c = true) : entryEq a c = true := by
  simp only [entryEq, Bool.and_eq_true, decide_eq_true_eq] at *
  exact ⟨h1.1.trans h2.1, h1.2.trans h2.2⟩

theorem memEq_append (e : Entry) (xs ys : List Entry) :
    memEq e (xs ++ ys) = (memEq e xs || memEq e ys) := by
  simp [memEq, List.any_append]

theorem memEq_of_mem {e : Entry} {xs : List Entry} (h : e ∈ xs) :
    memEq e xs = true := by
  simp only [memEq, List.any_eq_true]
  exact ⟨e, h, entryEq_refl e⟩

theorem memEq_of_entryEq {e x : Entry} {xs : List Entry}
    (hx : entryEq e x = true) (h : memEq x xs = true) : memEq e xs = true := by
  simp only [memEq, List.any_eq_true] at *
  obtain ⟨z, hz, he⟩ := h
  exact ⟨z, hz, entryEq_trans hx he⟩

theorem mem_add_iff (L : VLog) (x e : Entry) :
    memEq e (L.add x).entries = true ↔
      (memEq e L.entries = true ∨ entryEq e x = true) := by
  unfold VLog.add
  cases hu : (L.unique && memEq x L.entries) with
  | false =>
    simp only [hu, Bool.false_eq_true, if_false]
    rw [memEq_append]
    simp [memEq]
  | true =>
    simp only [hu, if_true]
    constructor
    · exact Or.inl
    · rintro (he | he)
      · exact he
      · have hx : memEq x L.entries = true := by
          simp only [Bool.and_eq_true] at hu
          exact hu.2
        exact memEq_of_entryEq he hx

theorem mem_merge_iff (other : List Entry) (L : VLog) (e : Entry) :
    memEq e (L.merge other).entries = true ↔
      (memEq e L.entries = true ∨ memEq e other = true) := by
  induction other generalizing L with
  | nil => simp [VLog.merge, memEq]
  | cons x t ih =>
    simp only [VLog.merge, List.foldl_cons] at *
    rw [ih (L.add x), mem_add_iff]
    have hx : memEq e (x :: t) = (entryEq e x || memEq e t) := by
      simp [memEq]
    rw [hx]
    simp only [Bool.or_eq_true]
    tauto

theorem memSubE_refl (xs : List Entry) : memSubE xs xs := fun _ h => h

theorem memSubE_trans {a b c : List Entry} (h1 : memSubE a b) (h2 : memSubE b c) :
    memSubE a c := fun e he => h2 e (h1 e he)

theorem memSubE_add {A B : VLog} (x : Entry)
    (h : memSubE A.entries B.entries) :
    memSubE (A.add x).entries (B.add x).entries := by
  intro e he
  rw [mem_add_iff] at *
  rcases he with h1 | h1
  · exact Or.inl (h e h1)
  · exact Or.inr h1

theorem memSubE_add_right (B : VLog) (x : Entry) :
    memSubE B.entries (B.add x).entries := fun e he =>
  (mem_add_iff B x e).mpr (Or.inl he)

theorem memSubE_merge {A B : VLog} {xs ys : List Entry}
    (h : memSubE A.entries B.entries) (h2 : memSubE xs ys) :
    memSubE (A.merge xs).entries (B.merge ys).entries := by
  intro e he
  rw [mem_merge_iff] at *
  rcases he with h1 | h1
  · exact Or.inl (h e h1)
  · exact Or.inr (h2 e h1)

theorem memSubE_merge_left (B : VLog) (xs : List Entry) :
    memSubE B.entries (B.merge xs).entries := fun e he =>
  (mem_merge_iff xs B e).mpr (Or.inl he)

theorem logErrorBody_logs (cfg : Config) (pth : JPath) (m : String) (S : Logs) :
    (logErrorBody cfg pth m S).logs =
      if cfg.collectErrors then { S with errors := S.errors.add ⟨m, pth⟩ } else S := by
  unfold logErrorBody
  split_ifs <;> rfl

theorem logErrorBody_esc (cfg : Config) (pth : JPath) (m : String) (S : Logs) :
    (logErrorBody cfg pth m S).esc =
      if cfg.failFast then .failfast else .none := by
  unfold logErrorBody
  split_ifs <;> rfl

theorem logWarningBody_errors (cfg : Config) (pth : JPath) (m : String) (S : Logs) :
    (logWarningBody cfg pth m S).logs.errors = S.errors := by
  unfold logWarningBody
  split_ifs <;> rfl

theorem logWarningBody_esc (cfg : Config) (pth : JPath) (m : String) (S : Logs) :
    (logWarningBody cfg pth m S).esc = .none := rfl

/-- Logging only extends the error log (membership-wise), whatever the
configuration. -/
theorem runP_mono (cfg : Config) (p : Prog) :
    ∀ (σ : Sinks) (S : Logs),
      memSubE S.errors.entries (runP cfg p σ S).logs.errors.entries := by
  induction p with
  | nop => intro σ S; simp [runP]; exact memSubE_refl _
  | err pth m =>
    intro σ S
    cases hσ : σ.err <;>
      simp only [runP, hσ, logErrorBody, logWarningBody] <;> split_ifs <;>
      first
        | exact memSubE_add_right _ _
        | exact memSubE_refl _
  | warn pth m =>
    intro σ S
    cases hσ : σ.warn <;>
      simp only [runP, hσ, logErrorBody, logWarningBody] <;> split_ifs <;>
      first
        | exact memSubE_add_right _ _
        | exact memSubE_refl _
  | orphanErr =>
    intro σ S
    cases hσ : σ.err with
    | toError =>
      simp only [runP, hσ, orphanErrorBody]
      split_ifs <;> exact memSubE_refl _
    | toWarning => simp only [runP, hσ]; exact memSubE_refl _
  | orphanWarn =>
    intro σ S
    cases hσ : σ.warn with
    | toError =>
      simp only [runP, hσ, orphanErrorBody]
      split_ifs <;> exact memSubE_refl _
    | toWarning => simp only [runP, hσ]; exact memSubE_refl _
  | exc => intro σ S; simp [runP]; exact memSubE_refl _
  | seq a b iha ihb =>
    intro σ S
    simp only [runP]
    cases h : (runP cfg a σ S).esc
    · exact memSubE_trans (iha σ S) (ihb σ (runP cfg a σ S).logs)
    · exact iha σ S
    · exact iha σ S
  | e2w a ih => intro σ S; simp only [runP]; exact ih _ S
  | w2e a ih => intro σ S; simp only [runP]; exact ih _ S
  | frame body gate ihb ihg =>
    intro σ S
    simp only [runP]
    cases h : (runP cfg body σ (Logs.fresh cfg.unique)).esc <;>
      simp only [subValidateMerge] <;>
      exact memSubE_merge_left _ _
  | swallow a ih => intro σ S; simp only [runP]; exact ih σ S

/-- With fail-fast disabled nothing raises `FailFastException`. -/
theorem runP_no_ff (cfg : Config) (hff : cfg.failFast = false) (p : Prog) :
    ∀ (σ : Sinks) (S : Logs), (runP cfg p σ S).esc ≠ .failfast := by
  induction p with
  | nop => intro σ S; simp [runP]
  | err pth m =>
    intro σ S
    cases hσ : σ.err <;>
      simp [runP, hσ, logErrorBody, logWarningBody, hff]
  | warn pth m =>
    intro σ S
    cases hσ : σ.warn <;>
      simp [runP, hσ, logErrorBody, logWarningBody, hff]
  | orphanErr =>
    intro σ S
    cases hσ : σ.err <;> simp [runP, hσ, orphanErrorBody, hff]
  | orphanWarn =>
    intro σ S
    cases hσ : σ.warn <;> simp [runP, hσ, orphanErrorBody, hff]
  | exc => intro σ S; simp [runP]
  | seq a b iha ihb =>
    intro σ S
    simp only [runP]
    cases h : (runP cfg a σ S).esc
    · exact ihb σ (runP cfg a σ S).logs
    · exact absurd h (iha σ S)
    · simp
  | e2w a ih => intro σ S; simp only [runP]; exact ih _ S
  | w2e a ih => intro σ S; simp only [runP]; exact ih _ S
  | frame body gate ihb ihg =>
    intro σ S
    simp only [runP]
    cases h : (runP cfg body σ (Logs.fresh cfg.unique)).esc <;> simp
  | swallow a ih => intro σ S; simp [runP]

/-- Fail-fast simulation: running any engine program under
`failFast=true` produces (membership-wise) a subset of the error
entries the `failFast=false` run produces from a related start state;
moreover a fail-fast run that ends normally forces the collect-all run
to end normally, and one that ends in a Python error forces the same
Python error on the collect-all run. -/
theorem runP_failfast_sim (cc cw uq : Bool) (p : Prog) :
    ∀ (σ : Sinks) (St Sf : Logs),
      memSubE St.errors.entries Sf.errors.entries →
      (memSubE (runP ⟨true, cc, cw, uq⟩ p σ St).logs.errors.entries
               (runP ⟨false, cc, cw, uq⟩ p σ Sf).logs.errors.entries
       ∧ ((runP ⟨true, cc, cw, uq⟩ p σ St).esc = .none →
           (runP ⟨false, cc, cw, uq⟩ p σ Sf).esc = .none)
       ∧ ((runP ⟨true, cc, cw, uq⟩ p σ St).esc = .pyerr →
           (runP ⟨false, cc, cw, uq⟩ p σ Sf).esc = .pyerr)) := by
  induction p with
  | nop =>
    intro σ St Sf h
    exact ⟨h, by simp [runP], by simp [runP]⟩
  | err pth m =>
    intro σ St Sf h
    cases hσ : σ.err with
    | toError =>
      simp only [runP, hσ]
      refine ⟨?_, ?_, ?_⟩
      · rw [logErrorBody_logs, logErrorBody_logs]
        split_ifs
        · exact memSubE_add _ h
        · exact h
      · rw [logErrorBody_esc]; simp
      · rw [logErrorBody_esc]; simp
    | toWarning =>
      simp only [runP, hσ]
      refine ⟨?_, ?_, ?_⟩
      · rw [logWarningBody_errors, logWarningBody_errors]; exact h
      · rw [logWarningBody_esc, logWarningBody_esc]; simp
      · rw [logWarningBody_esc]; simp
  | warn pth m =>
    intro σ St Sf h
    cases hσ : σ.warn with
    | toError =>
      simp only [runP, hσ]
      refine ⟨?_, ?_, ?_⟩
      · rw [logErrorBody_logs, logErrorBody_logs]
        split_ifs
        · exact memSubE_add _ h
        · exact h
      · rw [logErrorBody_esc]; simp
      · rw [logErrorBody_esc]; simp
    | toWarning =>
      simp only [runP, hσ]
      refine ⟨?_, ?_, ?_⟩
      · rw [logWarningBody_errors, logWarningBody_errors]; exact h
      · rw [logWarningBody_esc, logWarningBody_esc]; simp
      · rw [logWarningBody_esc]; simp
  | orphanErr =>
    intro σ St Sf h
    cases hσ : σ.err with
    | toError =>
      simp only [runP, hσ, orphanErrorBody]
      exact ⟨h, by simp, by simp⟩
    | toWarning =>
      simp only [runP, hσ]
      exact ⟨h, by simp, by simp⟩
  | orphanWarn =>
    intro σ St Sf h
    cases hσ : σ.warn with
    | toError =>
      simp only [runP, hσ, orphanErrorBody]
      exact ⟨h, by simp, by simp⟩
    | toWarning =>
      simp only [runP, hσ]
      exact ⟨h, by simp, by simp⟩
  | exc =>
    intro σ St Sf h
    simp only [runP]
    exact ⟨h, by simp, by simp⟩
  | seq a b iha ihb =>
    intro σ St Sf h
    obtain ⟨ha1, ha2, ha3⟩ := iha σ St Sf h
    simp only [runP]
    cases hat : (runP ⟨true, cc, cw, uq⟩ a σ St).esc with
    | none =>
      have haf := ha2 hat
      rw [haf]
      obtain ⟨hb1, hb2, hb3⟩ :=
        ihb σ (runP ⟨true, cc, cw, uq⟩ a σ St).logs
          (runP ⟨false, cc, cw, uq⟩ a σ Sf).logs ha1
      exact ⟨hb1, hb2, hb3⟩
    | failfast =>
      cases haf : (runP ⟨false, cc, cw, uq⟩ a σ Sf).esc with
      | none =>
        refine ⟨?_, by simp, by simp⟩
        exact memSubE_trans ha1
          (runP_mono _ b σ (runP ⟨false, cc, cw, uq⟩ a σ Sf).logs)
      | failfast => exact absurd haf (runP_no_ff _ rfl a σ Sf)
      | pyerr => exact ⟨ha1, by simp, by simp⟩
    | pyerr =>
      have haf := ha3 hat
      rw [haf]
      exact ⟨ha1, by simp, by simp⟩
  | e2w a ih =>
    intro σ St Sf h
    simp only [runP]
    exact ih _ St Sf h
  | w2e a ih =>
    intro σ St Sf h
    simp only [runP]
    exact ih _ St Sf h
  | frame body gate ihb ihg =>
    intro σ St Sf h
    obtain ⟨hb1, hb2, hb3⟩ :=
      ihb σ (Logs.fresh uq) (Logs.fresh uq) (memSubE_refl _)
    simp only [runP]
    cases hbt : (runP ⟨true, cc, cw, uq⟩ body σ (Logs.fresh uq)).esc with
    | none =>
      have hbf := hb2 hbt
      rw [hbf]
      obtain ⟨hg1, _, _⟩ :=
        ihg σ (runP ⟨true, cc, cw, uq⟩ body σ (Logs.fresh uq)).logs
          (runP ⟨false, cc, cw, uq⟩ body σ (Logs.fresh uq)).logs hb1
      refine ⟨?_, by simp, by simp⟩
      simp only [subValidateMerge]
      exact memSubE_merge h hg1
    | failfast =>
      cases hbf : (runP ⟨false, cc, cw, uq⟩ body σ (Logs.fresh uq)).esc with
      | none =>
        refine ⟨?_, by simp, by simp⟩
        simp only [subValidateMerge]
        exact memSubE_merge h
          (memSubE_trans hb1
            (runP_mono _ gate σ (runP ⟨false, cc, cw, uq⟩ body σ (Logs.fresh uq)).logs))
      | failfast => exact absurd hbf (runP_no_ff _ rfl body σ _)
      | pyerr =>
        refine ⟨?_, by simp, by simp⟩
        simp only [subValidateMerge]
        exact memSubE_merge h hb1
    | pyerr =>
      have hbf := hb3 hbt
      rw [hbf]
      refine ⟨?_, by simp, by simp⟩
      simp only [subValidateMerge]
      exact memSubE_merge h hb1
  | swallow a ih =>
    intro σ St Sf h
    simp only [runP]
    exact ⟨(ih σ St Sf h).1, by simp, by simp⟩

/-- With `collect_errors` disabled no run ever adds an error entry. -/
theorem runP_no_collect_errors (cfg : Config) (hce : cfg.collectErrors = false)
    (p : Prog) : ∀ (σ : Sinks) (S : Logs), (runP cfg p σ S).logs.errors = S.errors := by
  induction p with
  | nop => intro σ S; rfl
  | err pth m =>
    intro σ S
    cases hσ : σ.err with
    | toError =>
      simp only [runP, hσ, logErrorBody, hce, Bool.false_eq_true, if_false]
      split_ifs <;> rfl
    | toWarning => simp only [runP, hσ]; rw [logWarningBody_errors]
  | warn pth m =>
    intro σ S
    cases hσ : σ.warn with
    | toError =>
      simp only [runP, hσ, logErrorBody, hce, Bool.false_eq_true, if_false]
      split_ifs <;> rfl
    | toWarning => simp only [runP, hσ]; rw [logWarningBody_errors]
  | orphanErr =>
    intro σ S
    cases hσ : σ.err with
    | toError => simp only [runP, hσ, orphanErrorBody]; split_ifs <;> rfl
    | toWarning => simp only [runP, hσ]
  | orphanWarn =>
    intro σ S
    cases hσ : σ.warn with
    | toError => simp only [runP, hσ, orphanErrorBody]; split_ifs <;> rfl
    | toWarning => simp only [runP, hσ]
  | exc => intro σ S; rfl
  | seq a b iha ihb =>
    intro σ S
    simp only [runP]
    cases h : (runP cfg a σ S).esc
    · rw [ihb σ (runP cfg a σ S).logs, iha σ S]
    · exact iha σ S
    · exact iha σ S
  | e2w a ih => intro σ S; simp only [runP]; exact ih _ S
  | w2e a ih => intro σ S; simp only [runP]; exact ih _ S
  | frame body gate ihb ihg =>
    intro σ S
    simp only [runP]
    cases h : (runP cfg body σ (Logs.fresh cfg.unique)).esc with
    | none =>
      simp only [subValidateMerge]
      rw [ihg σ (runP cfg body σ (Logs.fresh cfg.unique)).logs,
          ihb σ (Logs.fresh cfg.unique)]
      rfl
    | failfast =>
      simp only [subValidateMerge]
      rw [ihb σ (Logs.fresh cfg.unique)]
      rfl
    | pyerr =>
      simp only [subValidateMerge]
      rw [ihb σ (Logs.fresh cfg.unique)]
      rfl
  | swallow a ih => intro σ S; simp only [runP]; exact ih σ S

/-- C2: For every sub-validation dispatched through `_sub_validate`,
whether the child's `_validate` returned normally or unwound with the
fail-fast signal, every entry of the child's error and warning logs is
merged (set union, honoring the caller's dedup policy) into the
caller's logs, the caller's own entries are preserved, the dispatcher
returns normally (the `return` in `finally` discards the escape), and
it returns the child's `corrected_doc` when that is truthy, else the
original fragment (`subschema._json`).  Python tests truthiness, not
non-nullness; a reachable corrected value is falsy only when it equals
the fragment itself, so the two coincide observably. -/
theorem c2_sub_validate_merges (parent childLogs : Logs) (childEsc : Escape)
    (childCorrected : Option Json) (childJson : Json) :
    (∀ e, memEq e childLogs.errors.entries = true →
      memEq e (subValidateM parent childLogs childEsc childCorrected childJson).logs.errors.entries = true)
    ∧ (∀ e, memEq e childLogs.warnings.entries = true →
      memEq e (subValidateM parent childLogs childEsc childCorrected childJson).logs.warnings.entries = true)
    ∧ (∀ e, memEq e parent.errors.entries = true →
      memEq e (subValidateM parent childLogs childEsc childCorrected childJson).logs.errors.entries = true)
    ∧ (∀ e, memEq e parent.warnings.entries = true →
      memEq e (subValidateM parent childLogs childEsc childCorrected childJson).logs.warnings.entries = true)
    ∧ (subValidateM parent childLogs childEsc childCorrected childJson).esc = .none
    ∧ (∀ c, childCorrected = some c → c.truthy = true →
      (subValidateM parent childLogs childEsc childCorrected childJson).ret = c)
    ∧ (∀ c, childCorrected = some c → c.truthy = false →
      (subValidateM parent childLogs childEsc childCorrected childJson).ret = childJson)
    ∧ (childCorrected = none →
      (subValidateM parent childLogs childEsc childCorrected childJson).ret = childJson) := by
  refine ⟨?_, ?_, ?_, ?_, rfl, ?_, ?_, ?_⟩
  · intro e he
    exact (mem_merge_iff _ _ e).mpr (Or.inr he)
  · intro e he
    exact (mem_merge_iff _ _ e).mpr (Or.inr he)
  · intro e he
    exact (mem_merge_iff _ _ e).mpr (Or.inl he)
  · intro e he
    exact (mem_merge_iff _ _ e).mpr (Or.inl he)
  · intro c hc ht
    simp [subValidateM, hc, ht]
  · intro c hc ht
    simp [subValidateM, hc, ht]
  · intro hc
    simp [subValidateM, hc]

/-- Witness for C2 at a concrete sub-validation. -/
theorem c2_sub_validate_merges_witness :
    memEq ⟨"m", []⟩ ((subValidateM (Logs.fresh true)
      ⟨⟨true, [⟨"m", []⟩]⟩, .empty true⟩ .failfast none (.str "j")).logs.errors.entries) = true
    ∧ (subValidateM (Logs.fresh true)
      ⟨⟨true, [⟨"m", []⟩]⟩, .empty true⟩ .failfast none (.str "j")).ret = .str "j" :=
  ⟨(c2_sub_validate_merges (Logs.fresh true) ⟨⟨true, [⟨"m", []⟩]⟩, .empty true⟩
      .failfast none (.str "j")).1 ⟨"m", []⟩ (by decide),
   (c2_sub_validate_merges (Logs.fresh true) ⟨⟨true, [⟨"m", []⟩]⟩, .empty true⟩
      .failfast none (.str "j")).2.2.2.2.2.2.2 rfl⟩

/-- C3: For every `_validate` call, returning normally or unwinding
(fail-fast or Python error), the `finally` block sets `is_valid`, and
it is true exactly when the validator's error log holds no entries at
that moment. -/
theorem c3_is_valid_iff_no_errors (cfg : Config) (σ : Sinks) (body gate : Prog) :
    (runValidate cfg σ body gate).isValid = true ↔
      (runValidate cfg σ body gate).logs.errors.entries = [] := by
  unfold runValidate
  cases h : (runP cfg body σ (Logs.fresh cfg.unique)).esc <;>
    simp [VLog.truthy, h]

/-- C4: For every document, validating with `failFast=false` yields a
set of Error entries that equals or is a superset (membership up to
the log's own index-insensitive entry equality) of those yielded with
`failFast=true` under the same remaining options: fail-fast only hides
diagnostics discovered after the abort point and never introduces an
Error that collect-all mode lacks. -/
theorem c4_failfast_error_subset (cc cw uq : Bool) (D : Json) (e : Entry)
    (h : memEq e (validateDoc ⟨true, cc, cw, uq⟩ D).logs.errors.entries = true) :
    memEq e (validateDoc ⟨false, cc, cw, uq⟩ D).logs.errors.entries = true := by
  unfold validateDoc at h ⊢
  cases hd : D.get "@type" with
  | none => simp only [hd] at h ⊢; exact h
  | some v =>
    cases v with
    | str t =>
      simp only [hd] at h ⊢
      by_cases h1 : t = "sc:Manifest"
      · simp only [h1, if_true] at h ⊢
        exact (runP_failfast_sim cc cw uq _ Sinks.init _ _ (memSubE_refl _)).1 e h
      · by_cases h2 : t = "sc:Sequence"
        · simp only [h1, h2, if_true, if_false] at h ⊢
          exact (runP_failfast_sim cc cw uq _ Sinks.init _ _ (memSubE_refl _)).1 e h
        · by_cases h3 : t = "sc:Canvas"
          · simp only [h1, h2, h3, if_true, if_false] at h ⊢
            exact (runP_failfast_sim cc cw uq _ Sinks.init _ _ (memSubE_refl _)).1 e h
          · by_cases h4 : t = "oa:Annotation"
            · simp only [h1, h2, h3, h4, if_true, if_false] at h ⊢
              exact (runP_failfast_sim cc cw uq _ Sinks.init _ _ (memSubE_refl _)).1 e h
            · simp only [h1, h2, h3, h4, if_false] at h ⊢
              exact h
    | null => simp only [hd] at h ⊢; exact h
    | bool b => simp only [hd] at h ⊢; exact h
    | num n => simp only [hd] at h ⊢; exact h
    | arr xs => simp only [hd] at h ⊢; exact h
    | obj kvs => simp only [hd] at h ⊢; exact h

/-- Witness for C4: the fail-fast run of `ffManifest` logs the bad
height, and so does the collect-all run. -/
theorem c4_failfast_error_subset_witness :
    memEq ffEntry1 (validateDoc ⟨true, true, true, true⟩ ffManifest).logs.errors.entries = true
    ∧ memEq ffEntry1 (validateDoc ⟨false, true, true, true⟩ ffManifest).logs.errors.entries = true :=
  ⟨by decide, c4_failfast_error_subset true true true ffManifest ffEntry1 (by decide)⟩

/-- C10: with `fail_fast` on and `collect_errors` off, every
`log_error` call raises the abort signal without adding any entry, and
any `_validate` run under this configuration ends with an empty error
log and `is_valid = true` — even though an error condition was
detected. -/
theorem c10_failfast_without_collect (cfg : Config) (hff : cfg.failFast = true)
    (hce : cfg.collectErrors = false) :
    (∀ (pth : JPath) (m : String) (S : Logs),
      runP cfg (.err pth m) Sinks.init S = ⟨S, .failfast, true⟩)
    ∧ (∀ (σ : Sinks) (body gate : Prog),
      (runValidate cfg σ body gate).logs.errors.entries = []
      ∧ (runValidate cfg σ body gate).isValid = true) := by
  constructor
  · intro pth m S
    simp [runP, Sinks.init, logErrorBody, hce, hff]
  · intro σ body gate
    have hv : (runValidate cfg σ body gate).logs.errors = (Logs.fresh cfg.unique).errors := by
      unfold runValidate
      dsimp only
      split
      · rw [runP_no_collect_errors cfg hce gate,
            runP_no_collect_errors cfg hce body]
      · exact runP_no_collect_errors cfg hce body σ _
    constructor
    · rw [hv]; rfl
    · rw [c3_is_valid_iff_no_errors cfg σ body gate, hv]; rfl

/-- Witness for C10 at a concrete configuration and run. -/
theorem c10_failfast_without_collect_witness :
    runP ⟨true, false, true, true⟩ (.err [] "boom") Sinks.init (Logs.fresh true) =
      ⟨Logs.fresh true, .failfast, true⟩
    ∧ (runValidate ⟨true, false, true, true⟩ Sinks.init (.err [] "boom") .nop).isValid = true :=
  ⟨(c10_failfast_without_collect ⟨true, false, true, true⟩ rfl rfl).1 [] "boom" (Logs.fresh true),
   ((c10_failfast_without_collect ⟨true, false, true, true⟩ rfl rfl).2 Sinks.init (.err [] "boom") .nop).2⟩

/-- C1 (failing input): on `ffManifest` with fail-fast enabled, a
`FailFastException` is raised (inside the first sequence's canvas
sub-validation), yet the run of the whole document ends without any
escaping signal and with *both* sequences' errors logged — the second
(the missing required `canvases` of the second sequence) after the
first already raised the abort signal: the `return` inside the
`finally` block of `_sub_validate` discards the in-flight exception at
the first enclosing sub-validation frame, so the abort signal never
reaches the initiator and the parent continues with its remaining
checks, contradicting the claimed whole-chain abort. -/
theorem c1_failfast_signal_swallowed :
    (validateDoc cfgFF ffManifest).hadFF = true
    ∧ (validateDoc cfgFF ffManifest).esc = .none
    ∧ (validateDoc cfgFF ffManifest).logs.errors.entries = [ffEntry1, ffEntry2] := by
  decide

/-- C5 (failing input): on a well-formed document whose `@type` is not
in the type table, the old router `IIIFValidator.validate` records the
unknown-type error at the empty path and sets `is_valid = False`, but
then still executes `self._sub_validate(validator, ...)` with
`validator = None`, raising `AttributeError` to the consumer, whatever
the linked validators would do. -/
theorem c5_unknown_type_unhandled_exception
    (dispatch : OldVType → Json → OldSubState) :
    iiifValidateOld dispatch (Json.obj [("@type", Json.str "sc:Collection")]) =
      ⟨[⟨"Unknown @type: 'sc:Collection'", []⟩], some false, some .attributeError⟩ :=
  rfl

/-- C6: severity coercion is scoped strictly to the wrapped call.
(1) A `log_error` call inside `errors_to_warnings` behaves exactly as
the current `log_warning` (the patch assigns the current value of
`BaseValidator.log_warning` to `BaseValidator.log_error`).
(2) Symmetrically, a `log_warning` call inside `warnings_to_errors`
behaves exactly as the current `log_error`.
(3) Wrapping a field check that would log exactly one Error with
`errors_to_warnings` yields zero new Errors and one new Warning, and
no fail-fast raise, under any fail-fast / collect-errors setting.
(4) That field check, unwrapped, logs exactly the one Error.
(5) Diagnostics logged before entering and after leaving the wrapped
call keep their severity (the patched binding is restored by the
wrapper's `finally`).
(6) Coercion composes by chaining the bindings: a `warnings_to_errors`
wrapper nested inside an `errors_to_warnings` wrapper rebinds
`log_warning` to the already-patched `log_error`, so it changes no
entry outside (or, here, even inside) its own scope. -/
theorem c6_severity_coercion_scoped :
    (∀ (cfg : Config) (σ : Sinks) (S : Logs) (pth : JPath) (m : String),
      runP cfg (.e2w (.err pth m)) σ S = runP cfg (.warn pth m) σ S)
    ∧ (∀ (cfg : Config) (σ : Sinks) (S : Logs) (pth : JPath) (m : String),
      runP cfg (.w2e (.warn pth m)) σ S = runP cfg (.err pth m) σ S)
    ∧ (∀ (ff cc uq : Bool) (pth : JPath) (m : String) (S : Logs),
      memEq ⟨m, pth⟩ S.warnings.entries = false →
      runP ⟨ff, cc, true, uq⟩ (.e2w (.err pth m)) Sinks.init S =
        ⟨⟨S.errors, ⟨S.warnings.unique, S.warnings.entries ++ [⟨m, pth⟩]⟩⟩, .none, false⟩)
    ∧ (∀ (uq : Bool) (pth : JPath) (m : String) (S : Logs),
      memEq ⟨m, pth⟩ S.errors.entries = false →
      runP ⟨false, true, true, uq⟩ (.err pth m) Sinks.init S =
        ⟨⟨⟨S.errors.unique, S.errors.entries ++ [⟨m, pth⟩]⟩, S.warnings⟩, .none, false⟩)
    ∧ (∀ (uq : Bool) (p1 p2 p3 : JPath) (m1 m2 m3 : String) (S : Logs),
      runP ⟨false, true, true, uq⟩
        (.seq (.err p1 m1) (.seq (.e2w (.err p2 m2)) (.err p3 m3))) Sinks.init S =
        ⟨⟨(S.errors.add ⟨m1, p1⟩).add ⟨m3, p3⟩, S.warnings.add ⟨m2, p2⟩⟩, .none, false⟩)
    ∧ (∀ (cfg : Config) (σ : Sinks) (S : Logs) (q : Prog),
      runP cfg (.e2w (.w2e q)) σ S = runP cfg (.e2w q) σ S) := by
  refine ⟨fun cfg σ S pth m => rfl, fun cfg σ S pth m => rfl, ?_, ?_, ?_, fun cfg σ S q => rfl⟩
  · intro ff cc uq pth m S h
    simp [runP, Sinks.init, logWarningBody, VLog.add, h]
  · intro uq pth m S h
    simp [runP, Sinks.init, logErrorBody, VLog.add, h]
  · intro uq p1 p2 p3 m1 m3 m2 S
    simp [runP, Sinks.init, logErrorBody, logWarningBody]

/-- Witness for C6's hypothesis-bearing parts at a concrete state. -/
theorem c6_severity_coercion_scoped_witness :
    runP ⟨true, true, true, true⟩ (.e2w (.err [] "oops")) Sinks.init (Logs.fresh true) =
      ⟨⟨.empty true, ⟨true, [⟨"oops", []⟩]⟩⟩, .none, false⟩
    ∧ runP ⟨false, true, true, true⟩ (.err [] "oops") Sinks.init (Logs.fresh true) =
      ⟨⟨⟨true, [⟨"oops", []⟩]⟩, .empty true⟩, .none, false⟩ :=
  ⟨c6_severity_coercion_scoped.2.2.1 true true true [] "oops" (Logs.fresh true) (by decide),
   c6_severity_coercion_scoped.2.2.2.1 true [] "oops" (Logs.fresh true) (by decide)⟩

theorem objSetH_self {fs : List (String × HVal)} {k : String} {v : HVal}
    (h : objGetH fs k = some v) : objSetH fs k v = fs := by
  induction fs with
  | nil => simp [objGetH] at h
  | cons kv t ih =>
    obtain ⟨k1, v1⟩ := kv
    by_cases hk : k1 = k
    · subst hk
      simp only [objGetH, if_pos rfl] at h
      cases h
      simp [objSetH]
    · simp only [objGetH, if_neg hk] at h
      simp [objSetH, hk, ih h]

theorem hset_self {h : Heap} {a : Addr} {o : HObj}
    (hl : hlookup h a = some o) : hset h a o = h := by
  induction h with
  | nil => simp [hlookup] at hl
  | cons bo t ih =>
    obtain ⟨b1, o1⟩ := bo
    by_cases hb : b1 = a
    · subst hb
      simp only [hlookup, if_pos rfl] at hl
      cases hl
      simp [hset]
    · simp only [hlookup, if_neg hb] at hl
      simp [hset, hb, ih hl]

/-- `_uri_type` leaves the heap exactly as it found it: its only write
puts back the value it read. -/
theorem uriTypeH_heap (h : Heap) (v : HVal) : (uriTypeH h v).1 = h := by
  unfold uriTypeH
  cases v with
  | imm j => rfl
  | list xs => rfl
  | ref a =>
    cases hl : hlookup h a with
    | none => simp [hl]
    | some o =>
      cases hg : objGetH o.fields "@id" with
      | none => simp [hl, hg]
      | some emb =>
        by_cases ht : hvalTruthy h emb = true
        · simp only [hl, hg, ht, if_pos rfl, stringUriH]
          rw [objSetH_self hg]
          exact hset_self hl
        · simp [hl, hg, ht]

/-- `_repeatable_uri_type` leaves the heap unchanged. -/
theorem repeatableUriH_heap (h : Heap) (v : HVal) : (repeatableUriH h v).1 = h := by
  unfold repeatableUriH
  cases v with
  | imm j => exact uriTypeH_heap h _
  | ref a => exact uriTypeH_heap h _
  | list xs =>
    show (xs.foldl _ (h, ([] : List HVal))).1 = h
    have main : ∀ (ys : List HVal) (acc : Heap × List HVal), acc.1 = h →
        (ys.foldl (fun acc x =>
          let rx := uriTypeH acc.1 x
          (rx.1, acc.2 ++ [rx.2])) acc).1 = h := by
      intro ys
      induction ys with
      | nil => intro acc hacc; exact hacc
      | cons y t ih =>
        intro acc hacc
        apply ih
        simp only
        rw [uriTypeH_heap, hacc]
    exact main xs (h, []) rfl

/-- `_general_image_resource` leaves the heap unchanged: the
image-service branch writes back the service value it read, every
other branch delegates to `_uri_type` or only logs. -/
theorem generalImageResourceH_heap (h : Heap) (v : HVal) :
    (generalImageResourceH h v).1 = h := by
  unfold generalImageResourceH
  cases v with
  | imm j => rfl
  | list xs => rfl
  | ref a =>
    cases hl : hlookup h a with
    | none => simp [hl]
    | some o =>
      cases hg : objGetH o.fields "service" with
      | none => simp [hl, hg, uriTypeH_heap]
      | some sv =>
        by_cases ht : hvalTruthy h sv = true
        · cases sv with
          | imm j => simp [hl, hg, ht]
          | list ys => simp [hl, hg, ht]
          | ref sa =>
            cases hsl : hlookup h sa with
            | none => simp [hl, hg, ht, hsl, uriTypeH_heap]
            | some so =>
              by_cases hctx : (match objGetH so.fields "@context" with
                  | some (.imm (.str s)) => s == imageApi2Uri
                  | _ => false) = true
              · simp only [hl, hg, ht, hsl, hctx, if_pos rfl, if_true]
                show hset h a ⟨objSetH o.fields "service" (.ref sa)⟩ = h
                rw [objSetH_self hg]
                exact hset_self hl
              · simp [hl, hg, ht, hsl, hctx, uriTypeH_heap]
        · simp [hl, hg, ht, uriTypeH_heap]

theorem hlookup_hset_ne {h : Heap} {a b : Addr} {o : HObj} (hne : b ≠ a) :
    hlookup (hset h a o) b = hlookup h b := by
  induction h with
  | nil => rfl
  | cons co t ih =>
    obtain ⟨c1, o1⟩ := co
    by_cases hc : c1 = a
    · subst hc
      simp only [hset, if_pos rfl, hlookup]
      rw [if_neg (fun hh => hne hh.symm), if_neg (fun hh => hne hh.symm)]
    · simp only [hset, if_neg hc, hlookup]
      by_cases hb : c1 = b
      · simp [hb]
      · simp [hb, ih]

theorem hlookup_append_left {h : Heap} {a : Addr} {o : HObj}
    (hl : hlookup h a = some o) (rest : Heap) :
    hlookup (h ++ rest) a = some o := by
  induction h with
  | nil => simp [hlookup] at hl
  | cons co t ih =>
    obtain ⟨c1, o1⟩ := co
    by_cases hc : c1 = a
    · subst hc
      simp only [hlookup, if_pos rfl] at hl
      cases hl
      simp [hlookup]
    · simp only [hlookup, if_neg hc] at hl
      simp only [List.cons_append, hlookup, if_neg hc]
      exact ih hl

theorem hlookup_lt_fresh {h : Heap} {a : Addr} {o : HObj}
    (hl : hlookup h a = some o) : a < freshAddr h := by
  have hle : a ≤ (h.map Prod.fst).foldr max 0 := by
    induction h with
    | nil => simp [hlookup] at hl
    | cons co t ih =>
      obtain ⟨c1, o1⟩ := co
      by_cases hc : c1 = a
      · subst hc
        simp only [List.map_cons, List.foldr_cons]
        exact Nat.le_max_left _ _
      · simp only [hlookup, if_neg hc] at hl
        simp only [List.map_cons, List.foldr_cons]
        exact le_trans (ih hl) (Nat.le_max_right _ _)
  exact Nat.lt_succ_of_le hle

/-- C7: applying a schema never mutates pre-existing objects.  The
conjuncts: `_uri_type` and `_general_image_resource` leave the heap
exactly unchanged (their in-place `value['@id']` / `value['service']`
writes put back the value read), and `_compare_dicts` with the
URI-flavored common-field checks only allocates and mutates the fresh
shallow copy: every address allocated before the call still holds
exactly its old object afterwards. -/
theorem c7_schema_application_no_mutation (h : Heap) (v : HVal) (a : Addr)
    (o : HObj) (hl : hlookup h a = some o) :
    (uriTypeH h v).1 = h
    ∧ (generalImageResourceH h v).1 = h
    ∧ hlookup (compareDictsH commonUriSchemaH h v).1 a = some o := by
  refine ⟨uriTypeH_heap h v, generalImageResourceH_heap h v, ?_⟩
  unfold compareDictsH
  cases v with
  | imm j => exact hl
  | list xs => exact hl
  | ref b =>
    cases hlb : hlookup h b with
    | none => simp only [hlb]; exact hl
    | some ob =>
      simp only [hlb]
      -- the fold starts from `h ++ [(c, ob)]` with `c` fresh and, since
      -- every check in the schema is heap-invariant, only rewrites `c`
      have hfresh : a ≠ freshAddr h := Nat.ne_of_lt (hlookup_lt_fresh hl)
      have hstart : hlookup (h ++ [(freshAddr h, ob)]) a = some o :=
        hlookup_append_left hl _
      have hinv : ∀ kf ∈ commonUriSchemaH, ∀ (hh : Heap) (vv : HVal), (kf.2 hh vv).1 = hh := by
        intro kf hkf
        simp only [commonUriSchemaH, List.mem_cons, List.not_mem_nil, or_false] at hkf
        rcases hkf with rfl | rfl | rfl | rfl | rfl | rfl | rfl | rfl | rfl <;>
          first
            | exact uriTypeH_heap
            | exact generalImageResourceH_heap
            | exact repeatableUriH_heap
      have foldPres : ∀ {α : Type} (f : (Heap × Unit) → α → (Heap × Unit)) (l : List α),
          (∀ (acc : Heap × Unit) (x : α), x ∈ l →
            hlookup acc.1 a = some o → hlookup (f acc x).1 a = some o) →
          ∀ (acc : Heap × Unit), hlookup acc.1 a = some o →
          hlookup (l.foldl f acc).1 a = some o := by
        intro α f l
        induction l with
        | nil => intro _ acc hacc; exact hacc
        | cons x t ih =>
          intro hf acc hacc
          rw [List.foldl_cons]
          exact ih (fun acc2 y hy h2 => hf acc2 y (List.mem_cons_of_mem _ hy) h2) _
            (hf acc x (List.mem_cons_self _ _) hacc)
      apply foldPres _ commonUriSchemaH _ _ hstart
      intro acc kf hkf hacc
      split
      · split
        · dsimp only
          rw [hinv kf hkf, hlookup_hset_ne hfresh]
          exact hacc
        · exact hacc
      · exact hacc

/-- Witness for C7 at a concrete one-object heap. -/
theorem c7_schema_application_no_mutation_witness :
    hlookup (compareDictsH commonUriSchemaH
        [(0, ⟨[("@id", .imm (.str "http://example.org/x"))]⟩)]
        (.ref 0)).1 0 =
      some ⟨[("@id", .imm (.str "http://example.org/x"))]⟩ :=
  (c7_schema_application_no_mutation
    [(0, ⟨[("@id", .imm (.str "http://example.org/x"))]⟩)] (.ref 0) 0
    ⟨[("@id", .imm (.str "http://example.org/x"))]⟩ rfl).2.2


/-! ## Deduplicating logging (C8) -/


theorem runP_seq_none {cfg : Config} {σ : Sinks} {a b : Prog} {S : Logs} {ra rb : RunRes}
    (ha : runP cfg a σ S = ra) (hesc : ra.esc = .none)
    (hb : runP cfg b σ ra.logs = rb) :
    runP cfg (.seq a b) σ S = ⟨rb.logs, rb.esc, ra.hadFF || rb.hadFF⟩ := by
  simp only [runP, ha, hesc, hb]

theorem runP_frame_nopgate {cfg : Config} {σ : Sinks} {body : Prog} {C : Logs} {f : Bool}
    (hb : runP cfg body σ (Logs.fresh cfg.unique) = ⟨C, .none, f⟩) (S : Logs) :
    runP cfg (.frame body .nop) σ S = ⟨subValidateMerge S C, .none, f⟩ := by
  simp only [runP, hb, Bool.or_false]

theorem canvasFrame_run (S : Logs) :
    runP cfgStd canvasFrame Sinks.init S =
      ⟨⟨S.errors.add heightEntry, S.warnings⟩, .none, false⟩ := rfl

theorem canvasFrame_run_nu (S : Logs) :
    runP cfgNoUnique canvasFrame Sinks.init S =
      ⟨⟨S.errors.add heightEntry, S.warnings⟩, .none, false⟩ := rfl

theorem runP_pseq_replicate {cfg : Config} {F : Prog} {e : Entry}
    (hF : ∀ S, runP cfg F Sinks.init S = ⟨⟨S.errors.add e, S.warnings⟩, .none, false⟩) :
    ∀ (n : Nat) (S : Logs),
      runP cfg (pseq (List.replicate n F)) Sinks.init S =
        ⟨⟨addN e n S.errors, S.warnings⟩, .none, false⟩ := by
  intro n
  induction n with
  | zero => intro S; rfl
  | succ k ih =>
    intro S
    show runP cfg (.seq F (pseq (List.replicate k F))) Sinks.init S = _
    exact runP_seq_none (hF S) rfl (ih _)

theorem add_unique_eq (L : VLog) (e : Entry) : (L.add e).unique = L.unique := by
  unfold VLog.add
  split_ifs <;> rfl

theorem add_of_memEq {L : VLog} {e : Entry} (hu : L.unique = true)
    (hm : memEq e L.entries = true) : L.add e = L := by
  unfold VLog.add
  rw [hu, hm]
  rfl

theorem addN_stable (e : Entry) : ∀ (k : Nat) (L : VLog),
    L.unique = true → memEq e L.entries = true → addN e k L = L := by
  intro k
  induction k with
  | zero => intro L _ _; rfl
  | succ m ih =>
    intro L hu hm
    show addN e m (L.add e) = L
    rw [add_of_memEq hu hm]
    exact ih L hu hm

theorem addN_unique_entries (e : Entry) (n : Nat) (hn : 1 ≤ n) :
    (addN e n (VLog.empty true)).entries = [e] := by
  obtain ⟨k, rfl⟩ : ∃ k, n = k + 1 := ⟨n - 1, by omega⟩
  show (addN e k ((VLog.empty true).add e)).entries = [e]
  have h1 : (VLog.empty true).add e = ⟨true, [e]⟩ := rfl
  rw [h1, addN_stable e k ⟨true, [e]⟩ rfl (by simp [memEq, entryEq_refl])]

theorem addN_nonunique_entries (e : Entry) : ∀ (n : Nat) (L : VLog),
    L.unique = false → (addN e n L).entries = L.entries ++ List.replicate n e := by
  intro n
  induction n with
  | zero => intro L _; simp [addN]
  | succ m ih =>
    intro L hu
    have hL : L.add e = ⟨L.unique, L.entries ++ [e]⟩ := by
      simp [VLog.add, hu]
    show (addN e m (L.add e)).entries = L.entries ++ List.replicate (m+1) e
    rw [hL, ih ⟨L.unique, L.entries ++ [e]⟩ hu]
    simp [List.replicate_succ]

theorem merge_nonunique_entries : ∀ (ls : List Entry) (L : VLog), L.unique = false →
    (L.merge ls).entries = L.entries ++ ls := by
  intro ls
  induction ls with
  | nil => intro L _; simp [VLog.merge]
  | cons x t ih =>
    intro L hu
    show ((L.add x).merge t).entries = L.entries ++ (x :: t)
    rw [ih (L.add x) (by rw [add_unique_eq]; exact hu)]
    have hx : (L.add x).entries = L.entries ++ [x] := by simp [VLog.add, hu]
    rw [hx, List.append_assoc]
    rfl

theorem validateDoc_sequence (cfg : Config) (D : Json)
    (h : D.get "@type" = some (.str "sc:Sequence")) :
    validateDoc cfg D =
      runP cfg (sequenceValidateC true [] D).1 Sinks.init (Logs.fresh cfg.unique) := by
  unfold validateDoc
  rw [h]
  rfl

theorem seqDoc_struct (k : Nat) :
    ∃ A B C, (sequenceValidateC true [] (seqDoc (k + 1))).1 =
      .frame (.seq A (.seq (.seq B
        (pseq (((List.replicate (k + 1) badCanvas).map
          (canvasValidateC ([] ++ [Step.field "canvases"]))).map Prod.fst))) C)) .nop
      ∧ (∀ cfg σ S, runP cfg A σ S = ⟨S, .none, false⟩)
      ∧ (∀ cfg σ S, runP cfg B σ S = ⟨S, .none, false⟩)
      ∧ (∀ cfg σ S, runP cfg C σ S = ⟨S, .none, false⟩) := by
  refine ⟨_, _, _, rfl, fun cfg σ S => rfl, fun cfg σ S => rfl, fun cfg σ S => rfl⟩

theorem seqDoc_errors_unique (n : Nat) (hn : 1 ≤ n) :
    (validateDoc cfgStd (seqDoc n)).logs.errors.entries = [heightEntry] := by
  obtain ⟨k, rfl⟩ : ∃ k, n = k + 1 := ⟨n - 1, by omega⟩
  obtain ⟨A, B, C, hk, hA, hB, hC⟩ := seqDoc_struct k
  rw [List.map_map, List.map_replicate] at hk
  have hconv : (Prod.fst ∘ canvasValidateC ([] ++ [Step.field "canvases"])) badCanvas
      = canvasFrame := rfl
  rw [hconv] at hk
  rw [validateDoc_sequence cfgStd (seqDoc (k+1)) rfl, hk]
  have hRep := runP_pseq_replicate canvasFrame_run (k+1)
  have h2 : runP cfgStd (.seq B (pseq (List.replicate (k+1) canvasFrame)))
      Sinks.init (Logs.fresh true)
      = ⟨⟨addN heightEntry (k+1) (VLog.empty true), VLog.empty true⟩, .none, false⟩ :=
    runP_seq_none (hB cfgStd Sinks.init (Logs.fresh true)) rfl (hRep (Logs.fresh true))
  have h3 : runP cfgStd (.seq (.seq B (pseq (List.replicate (k+1) canvasFrame))) C)
      Sinks.init (Logs.fresh true)
      = ⟨⟨addN heightEntry (k+1) (VLog.empty true), VLog.empty true⟩, .none, false⟩ :=
    runP_seq_none h2 rfl (hC cfgStd Sinks.init _)
  have hbody : runP cfgStd
      (.seq A (.seq (.seq B (pseq (List.replicate (k+1) canvasFrame))) C))
      Sinks.init (Logs.fresh true)
      = ⟨⟨addN heightEntry (k+1) (VLog.empty true), VLog.empty true⟩, .none, false⟩ :=
    runP_seq_none (hA cfgStd Sinks.init (Logs.fresh true)) rfl h3
  rw [runP_frame_nopgate hbody]
  show ((VLog.empty true).merge
    (addN heightEntry (k+1) (VLog.empty true)).entries).entries = [heightEntry]
  rw [addN_unique_entries heightEntry (k+1) (by omega)]
  rfl

theorem seqDoc_errors_nonunique (n : Nat) (hn : 1 ≤ n) :
    (validateDoc cfgNoUnique (seqDoc n)).logs.errors.entries =
      List.replicate n heightEntry := by
  obtain ⟨k, rfl⟩ : ∃ k, n = k + 1 := ⟨n - 1, by omega⟩
  obtain ⟨A, B, C, hk, hA, hB, hC⟩ := seqDoc_struct k
  rw [List.map_map, List.map_replicate] at hk
  have hconv : (Prod.fst ∘ canvasValidateC ([] ++ [Step.field "canvases"])) badCanvas
      = canvasFrame := rfl
  rw [hconv] at hk
  rw [validateDoc_sequence cfgNoUnique (seqDoc (k+1)) rfl, hk]
  have hRep := runP_pseq_replicate canvasFrame_run_nu (k+1)
  have h2 : runP cfgNoUnique (.seq B (pseq (List.replicate (k+1) canvasFrame)))
      Sinks.init (Logs.fresh false)
      = ⟨⟨addN heightEntry (k+1) (VLog.empty false), VLog.empty false⟩, .none, false⟩ :=
    runP_seq_none (hB cfgNoUnique Sinks.init (Logs.fresh false)) rfl (hRep (Logs.fresh false))
  have h3 : runP cfgNoUnique (.seq (.seq B (pseq (List.replicate (k+1) canvasFrame))) C)
      Sinks.init (Logs.fresh false)
      = ⟨⟨addN heightEntry (k+1) (VLog.empty false), VLog.empty false⟩, .none, false⟩ :=
    runP_seq_none h2 rfl (hC cfgNoUnique Sinks.init _)
  have hbody : runP cfgNoUnique
      (.seq A (.seq (.seq B (pseq (List.replicate (k+1) canvasFrame))) C))
      Sinks.init (Logs.fresh false)
      = ⟨⟨addN heightEntry (k+1) (VLog.empty false), VLog.empty false⟩, .none, false⟩ :=
    runP_seq_none (hA cfgNoUnique Sinks.init (Logs.fresh false)) rfl h3
  rw [runP_frame_nopgate hbody]
  show ((VLog.empty false).merge
    (addN heightEntry (k+1) (VLog.empty false)).entries).entries =
      List.replicate (k+1) heightEntry
  rw [addN_nonunique_entries heightEntry (k+1) (VLog.empty false) rfl]
  rw [merge_nonunique_entries _ (VLog.empty false) rfl]
  rfl

/-- C8: with `unique_logging=true`, inserting two entries whose
(index-insensitive path, message) pairs are equal collapses them to one
regardless of insertion order, and validating a sequence whose
`canvases` list holds `n ≥ 2` structurally identical invalid canvases
yields exactly one error entry (the single distinct message); with
`unique_logging=false` the same validation yields `n` entries, one per
canvas. -/
theorem c8_unique_logging_dedup :
    (∀ (L : VLog) (e1 e2 : Entry), L.unique = true → entryEq e1 e2 = true →
        (L.add e1).add e2 = L.add e1 ∧ (L.add e2).add e1 = L.add e2)
    ∧ (∀ n : Nat, 2 ≤ n →
        (validateDoc cfgStd (seqDoc n)).logs.errors.entries = [heightEntry]
        ∧ (validateDoc cfgNoUnique (seqDoc n)).logs.errors.entries =
            List.replicate n heightEntry) := by
  constructor
  · intro L e1 e2 hu he
    refine ⟨add_of_memEq ?_ ?_, add_of_memEq ?_ ?_⟩
    · rw [add_unique_eq]; exact hu
    · exact (mem_add_iff L e1 e2).mpr (Or.inr (entryEq_symm he))
    · rw [add_unique_eq]; exact hu
    · exact (mem_add_iff L e2 e1).mpr (Or.inr he)
  · intro n hn
    exact ⟨seqDoc_errors_unique n (by omega), seqDoc_errors_nonunique n (by omega)⟩

/-- Concrete instance of the dedup claim: the sequence with three
identical invalid canvases, and a direct double insertion. -/
theorem c8_unique_logging_dedup_witness :
    (((VLog.empty true).add heightEntry).add heightEntry
        = (VLog.empty true).add heightEntry)
    ∧ (validateDoc cfgStd (seqDoc 3)).logs.errors.entries = [heightEntry]
    ∧ (validateDoc cfgNoUnique (seqDoc 3)).logs.errors.entries =
        List.replicate 3 heightEntry :=
  ⟨(c8_unique_logging_dedup.1 (VLog.empty true) heightEntry heightEntry rfl
      (entryEq_refl heightEntry)).1,
   (c8_unique_logging_dedup.2 3 (by omega)).1,
   (c8_unique_logging_dedup.2 3 (by omega)).2⟩


/-! ## The markup checker (C9) -/

/-- C9: for the markup checker under the standard configuration:
`"<p><br/></p>"` in a `description` field passes with no diagnostics;
the same value in a `label` field yields exactly one Error
("HTML not allowed in this field.") and no Warning;
`"<script>x</script>"` yields an Error at every path and field; and
`"<span><foo>x</foo></span>"` in a `description` field yields zero
Errors and exactly one uncertain-tag Warning for `<foo>`. -/
theorem c9_markup_checker :
    runP cfgStd (checkHtmlC [] "description" "<p><br/></p>") Sinks.init (Logs.fresh true)
      = ⟨Logs.fresh true, .none, false⟩
    ∧ ((runP cfgStd (checkHtmlC [] "label" "<p><br/></p>") Sinks.init
          (Logs.fresh true)).logs.errors.entries
        = [⟨"HTML not allowed in this field.", [Step.field "label"]⟩]
      ∧ (runP cfgStd (checkHtmlC [] "label" "<p><br/></p>") Sinks.init
          (Logs.fresh true)).logs.warnings.entries = [])
    ∧ (∀ (path : JPath) (field : String),
        0 < (runP cfgStd (checkHtmlC path field "<script>x</script>") Sinks.init
          (Logs.fresh true)).logs.errors.entries.length)
    ∧ ((runP cfgStd (checkHtmlC [] "description" "<span><foo>x</foo></span>") Sinks.init
          (Logs.fresh true)).logs.errors.entries = []
      ∧ (runP cfgStd (checkHtmlC [] "description" "<span><foo>x</foo></span>") Sinks.init
          (Logs.fresh true)).logs.warnings.entries
        = [⟨uncertainTagMsg "foo", [Step.field "description"]⟩]) := by
  refine ⟨by decide, ⟨by decide, by decide⟩, ?_, by decide, by decide⟩
  intro path field
  have hred : checkHtmlC path field "<script>x</script>" =
      (if !(htmlAllowedFields.any (fun sfx =>
            noIndexEndswith (path ++ [Step.field field]) sfx)) then
        .err (path ++ [Step.field field]) "HTML not allowed in this field."
      else (checkHtmlElement (path ++ [Step.field field]) (.elem "script" [] [])).1) := rfl
  have hel : (checkHtmlElement (path ++ [Step.field field]) (.elem "script" [] [])).1
      = .err (path ++ [Step.field field]) "Forbidden tag '<script>' in html." := rfl
  rw [hred, hel]
  cases hA : htmlAllowedFields.any (fun sfx =>
      noIndexEndswith (path ++ [Step.field field]) sfx) with
  | false =>
    simp only [hA, Bool.not_false, if_true]
    simp [runP, logErrorBody, cfgStd, Sinks.init, Logs.fresh, VLog.empty, VLog.add, memEq]
  | true =>
    simp only [hA, Bool.not_true, Bool.false_eq_true, if_false]
    simp [runP, logErrorBody, cfgStd, Sinks.init, Logs.fresh, VLog.empty, VLog.add, memEq]


end Tripoli
